import Mathlib

/-!
Verification of the Ledger Reconciliation Engine of the finance-management
app (the `DatabaseProvider` context).  The persistent store tables
(`assets`, `transactions`, `budgets`, `archived_transactions`,
`transaction_history`) and the in-memory undo buffer are modelled as one
explicit `State`; every engine operation is translated statement by
statement from the source.  Monetary values, JS doubles in the source, are
modelled as rationals; SQLite `TEXT` dates are compared lexicographically,
exactly as the source's ISO-8601 strings are compared by SQL.  All row ids
come from `INTEGER PRIMARY KEY AUTOINCREMENT` columns, so a per-row
`UPDATE ... WHERE id = ?` is modelled as a map over the table keyed by id.
-/

namespace FinanceApp

/-- Monetary values: the source stores JS doubles in `REAL` columns; we model
them as rationals. -/
abbrev Money := ℚ

/-- Row of the `assets` table. -/
structure Asset where
  id : Nat
  name : String
  amount : Money
  currency : String
  image : String
deriving Repr, DecidableEq

/-- Row of the `transactions` table. -/
structure Tx where
  id : Nat
  type : String
  amount : Money
  category : String
  description : String
  location : String
  date : String
deriving Repr, DecidableEq

/-- Row of the `budgets` table. -/
structure Budget where
  id : Nat
  category : String
  amount : Money
  period : String
  spent : Money
deriving Repr, DecidableEq

/-- Row of the `archived_transactions` table. -/
structure ArchivedTx where
  id : Nat
  originalId : Nat
  type : String
  amount : Money
  category : String
  description : String
  location : String
  date : String
  archivedDate : String
deriving Repr, DecidableEq

/-- Row of the `transaction_history` table; `snapshot` models the JSON
serialized transaction stored in the `data` column. -/
structure HistoryRecord where
  id : Nat
  transactionId : Nat
  action : String
  timestamp : String
  snapshot : Tx
deriving Repr, DecidableEq

/-- The store tables plus the in-memory `recentlyDeleted` undo buffer.  The
`next*Id` counters model the AUTOINCREMENT id assignment of each table. -/
@[ext]
structure State where
  assets : List Asset
  transactions : List Tx
  budgets : List Budget
  archived : List ArchivedTx
  history : List HistoryRecord
  recentlyDeleted : List Tx
  nextTxId : Nat
  nextArchivedId : Nat
  nextHistoryId : Nat
deriving Repr, DecidableEq

/-- Raw argument of `addTransaction`.  `none` in a field models a missing
(or, for `amount`, non-numeric) JS value, which the source replaces with a
default. -/
structure TxInput where
  type : Option String
  amount : Option Money
  category : Option String
  description : Option String
  location : Option String
  date : Option String
deriving Repr, DecidableEq

/-- Validated data built at the top of `addTransaction`:
`type: (transaction.type || '').toLowerCase()`,
`amount: parseFloat(transaction.amount) || 0` (a missing or non-numeric
amount becomes `0`; no positivity or finiteness check is performed),
`category/description/location: x || ''` and
`date: transaction.date || new Date().toISOString()` (an absent or empty
date string is falsy in JS and defaults to now). -/
structure TxData where
  type : String
  amount : Money
  category : String
  description : String
  location : String
  date : String
deriving Repr, DecidableEq

/-- JS `toLowerCase()` (and SQLite's ASCII case folding), as a
per-character fold over the string's characters. -/
def strLower (s : String) : String :=
  ⟨s.data.map Char.toLower⟩

/-- The `validatedTransaction` object of `addTransaction`. -/
def validateTransaction (nowS : String) (i : TxInput) : TxData :=
  { type := strLower (i.type.getD "")
    amount := i.amount.getD 0
    category := i.category.getD ""
    description := i.description.getD ""
    location := i.location.getD ""
    date := match i.date with
            | none => nowS
            | some d => if d = "" then nowS else d }

/-- A single SQL statement issued by an engine operation, with the concrete
row values the source computes for it. -/
inductive Write where
  | insertTx (t : Tx)
  | updateTxRow (u : Tx)
  | updateAssetRow (a : Asset)
  | updateBudgetRow (b : Budget)
  | insertHistory (h : HistoryRecord)
  | deleteTxRow (id : Nat)
deriving Repr, DecidableEq

/-- Effect of one statement on the store.  Updates are keyed by the primary
key id, exactly like the `WHERE id = ?` clauses of the source. -/
def applyWrite (S : State) : Write → State
  | Write.insertTx t =>
      { S with transactions := t :: S.transactions, nextTxId := S.nextTxId + 1 }
  | Write.updateTxRow u =>
      { S with transactions := S.transactions.map (fun t => if t.id == u.id then u else t) }
  | Write.updateAssetRow a =>
      { S with assets := S.assets.map (fun x => if x.id == a.id then a else x) }
  | Write.updateBudgetRow b =>
      { S with budgets := S.budgets.map (fun x => if x.id == b.id then b else x) }
  | Write.insertHistory h =>
      { S with history := S.history ++ [h], nextHistoryId := S.nextHistoryId + 1 }
  | Write.deleteTxRow id =>
      { S with transactions := S.transactions.filter (fun t => t.id != id) }

/-- Effect of a sequence of statements, first to last. -/
def applyWrites (S : State) (ws : List Write) : State :=
  ws.foldl applyWrite S

/-- Statements issued by `addTransaction`, in source order: insert the
transaction row; if the location resolves to an asset, write its adjusted
amount (income adds, expense subtracts, any other type leaves the amount
as read); if the type is expense and the category is non-empty, write
`spent + amount` for every budget of that category. -/
def addTransactionWrites (nowS : String) (S : State) (i : TxInput) : List Write :=
  let v := validateTransaction nowS i
  let newTx : Tx :=
    { id := S.nextTxId, type := v.type, amount := v.amount, category := v.category,
      description := v.description, location := v.location, date := v.date }
  Write.insertTx newTx ::
  ((if v.location = "" then []
    else
      match S.assets.find? (fun a => a.name == v.location) with
      | some a =>
          [Write.updateAssetRow { a with amount :=
              if v.type = "income" then a.amount + v.amount
              else if v.type = "expense" then a.amount - v.amount
              else a.amount }]
      | none => []) ++
   (if v.type = "expense" ∧ v.category ≠ "" then
      (S.budgets.filter (fun b => b.category == v.category)).map
        (fun b => Write.updateBudgetRow { b with spent := b.spent + v.amount })
    else []))

/-- The `newTransaction` object built inside the `withTransactionAsync`
callback of `addTransaction`: the validated data with the freshly assigned
row id. -/
def createdTransaction (nowS : String) (S : State) (i : TxInput) : Tx :=
  let v := validateTransaction nowS i
  { id := S.nextTxId, type := v.type, amount := v.amount, category := v.category,
    description := v.description, location := v.location, date := v.date }

/-- `addTransaction`.  All its statements run inside one
`db.withTransactionAsync` block.  The source ends the callback with
`return newTransaction`, but `withTransactionAsync` resolves to
`undefined` (its task's value is discarded) and the enclosing function
body never returns a value on the success path, so the operation resolves
to `undefined`; the returned `Option Tx` is therefore `none`. -/
def addTransaction (nowS : String) (S : State) (i : TxInput) : State × Option Tx :=
  (applyWrites S (addTransactionWrites nowS S i), none)

/-- The `newAmount` after reversing the original transaction's effect on
its asset, as computed by `updateTransaction`: income is subtracted back,
any other type is added back (the source's bare `else`). -/
def assetReversed (a1 : Asset) (o : Tx) : Money :=
  if o.type = "income" then a1.amount - o.amount else a1.amount + o.amount

/-- The same-asset `newAmount` of `updateTransaction`: the reversal plus
the updated transaction's effect (income adds, anything else subtracts). -/
def assetNewAmount (a1 : Asset) (o u : Tx) : Money :=
  if u.type = "income" then assetReversed a1 o + u.amount else assetReversed a1 o - u.amount

/-- The `newAssetAmount` applied to the new asset when the location
changed. -/
def assetApplied (a2 : Asset) (u : Tx) : Money :=
  if u.type = "income" then a2.amount + u.amount else a2.amount - u.amount

/-- Asset statements issued by `updateTransaction` once the original row
`o` was found: nothing unless location, amount or type changed; the whole
block is skipped when the original location resolves to no asset (even if
the new location does); same-location updates write one row, moves write
the reversal on the old asset and, when the new location resolves, the
application on the new one. -/
def updateAssetWrites (S : State) (o u : Tx) : List Write :=
  if o.location ≠ u.location ∨ o.amount ≠ u.amount ∨ o.type ≠ u.type then
    match S.assets.find? (fun a => a.name == o.location) with
    | none => []
    | some a1 =>
      if o.location = u.location then
        [Write.updateAssetRow { a1 with amount := assetNewAmount a1 o u }]
      else
        Write.updateAssetRow { a1 with amount := assetReversed a1 o } ::
        (match S.assets.find? (fun a => a.name == u.location) with
         | none => []
         | some a2 =>
           [Write.updateAssetRow { a2 with amount := assetApplied a2 u }])
  else []

/-- Budget statements issued by `updateTransaction`: only when the updated
type is exactly `expense`; on a category change the original amount is
reversed (floored at zero) on old-category budgets and the new amount
added to new-category budgets; on a bare amount change the signed delta is
applied, floored at zero.  All values are computed from the pre-operation
budget rows. -/
def updateBudgetWrites (S : State) (o u : Tx) : List Write :=
  if u.type = "expense" then
    if o.category ≠ u.category then
      (S.budgets.filter (fun b => b.category == o.category)).map
        (fun b => Write.updateBudgetRow { b with spent := max 0 (b.spent - o.amount) }) ++
      (S.budgets.filter (fun b => b.category == u.category)).map
        (fun b => Write.updateBudgetRow { b with spent := b.spent + u.amount })
    else if o.amount ≠ u.amount then
      (S.budgets.filter (fun b => b.category == u.category)).map
        (fun b => Write.updateBudgetRow { b with spent := max 0 (b.spent + (u.amount - o.amount)) })
    else []
  else []

/-- Statements issued by `updateTransaction`, in source order: the bare
`UPDATE transactions` row write, then the asset adjustments, then the
budget adjustments; nothing else when the original row is absent. -/
def updateTransactionWrites (S : State) (u : Tx) : List Write :=
  Write.updateTxRow u ::
  (match S.transactions.find? (fun t => t.id == u.id) with
   | none => []
   | some o => updateAssetWrites S o u ++ updateBudgetWrites S o u)

/-- `updateTransaction`: its statements are issued one by one, with no
`withTransactionAsync` grouping. -/
def updateTransaction (S : State) (u : Tx) : State :=
  applyWrites S (updateTransactionWrites S u)

/-- Statements issued by `deleteTransaction` once the transaction was
found, in source order and inside one `withTransactionAsync` block:
reverse the asset effect (income subtracted on creation is added back and
vice versa; other types leave the amount as read), floor-at-zero decrement
of `spent` on every budget matching the category of an expense, insert the
`delete` history record with the full snapshot, delete the transaction
row. -/
def deleteTransactionWrites (nowS : String) (S : State) (id : Nat) (t : Tx) : List Write :=
  (if t.location = "" then []
   else
     match S.assets.find? (fun a => a.name == t.location) with
     | some a =>
         [Write.updateAssetRow { a with amount :=
             if t.type = "income" then a.amount - t.amount
             else if t.type = "expense" then a.amount + t.amount
             else a.amount }]
     | none => []) ++
  (if t.type = "expense" ∧ t.category ≠ "" then
     (S.budgets.filter (fun b => b.category == t.category)).map
       (fun b => Write.updateBudgetRow { b with spent := max 0 (b.spent - t.amount) })
   else []) ++
  [Write.insertHistory
     { id := S.nextHistoryId, transactionId := id, action := "delete",
       timestamp := nowS, snapshot := t },
   Write.deleteTxRow id]

/-- `deleteTransaction`: returns `false` and changes nothing when no
transaction has the given id; otherwise applies its atomic write group,
pushes the deleted transaction onto the undo buffer
(`[transaction, ...recentlyDeleted.slice(0, 4)]`) and returns `true`. -/
def deleteTransaction (nowS : String) (S : State) (id : Nat) : State × Bool :=
  match S.transactions.find? (fun t => t.id == id) with
  | none => (S, false)
  | some t =>
      let S1 := applyWrites S (deleteTransactionWrites nowS S id t)
      ({ S1 with recentlyDeleted := t :: S.recentlyDeleted.take 4 }, true)

/-- View of a stored transaction as an argument for `addTransaction`; used
by `undoDeleteTransaction`, which passes the deleted snapshot back to
`addTransaction`. -/
def txToInput (t : Tx) : TxInput :=
  { type := some t.type, amount := some t.amount, category := some t.category,
    description := some t.description, location := some t.location, date := some t.date }

/-- `undoDeleteTransaction`: re-runs `addTransaction` on the snapshot (a
new row id is assigned; the old one is not reused), removes the snapshot's
id from the undo buffer, and appends a `restore` history record. -/
def undoDeleteTransaction (nowS : String) (S : State) (t : Tx) : State × Bool :=
  let S1 := (addTransaction nowS S (txToInput t)).1
  ({ S1 with
      recentlyDeleted := S1.recentlyDeleted.filter (fun x => x.id != t.id),
      history := S1.history ++
        [{ id := S1.nextHistoryId, transactionId := t.id, action := "restore",
           timestamp := nowS, snapshot := t }],
      nextHistoryId := S1.nextHistoryId + 1 }, true)

/-- Archived copy of a transaction, as inserted by the archive
operations: the original row values plus the original id and a fresh
archived date. -/
def archivedCopy (nowS : String) (aid : Nat) (t : Tx) : ArchivedTx :=
  { id := aid, originalId := t.id, type := t.type, amount := t.amount,
    category := t.category, description := t.description, location := t.location,
    date := t.date, archivedDate := nowS }

/-- Archived copies of a batch of transactions with consecutive fresh
ids. -/
def archiveCopies (nowS : String) (startId : Nat) : List Tx → List ArchivedTx
  | [] => []
  | t :: ts => archivedCopy nowS startId t :: archiveCopies nowS (startId + 1) ts

/-- `autoArchiveOldTransactions`.  The source computes the cutoff from the
wall clock minus `archiveAfterMonths`; the resulting ISO string is the
`cutoff` parameter here.  Transactions strictly older than the cutoff are
copied into `archived_transactions` with a fresh archived date and deleted
from `transactions`, in one atomic unit; no asset or budget row is
touched.  The trailing `loadTransactions()` call reaches
`database || this.db` with `this` undefined, so it throws, is caught by
its own handler and has no store effect. -/
def autoArchiveOldTransactions (cutoff nowS : String) (S : State) : State :=
  let toArchive := S.transactions.filter (fun t => decide (t.date < cutoff))
  if toArchive.isEmpty then S
  else
    { S with
      archived := S.archived ++ archiveCopies nowS S.nextArchivedId toArchive,
      nextArchivedId := S.nextArchivedId + toArchive.length,
      transactions := S.transactions.filter (fun t => !(decide (t.date < cutoff))) }

/-- `archiveTransactionsByDateRange`: same relocation over an inclusive
date range, returning the number of rows moved. -/
def archiveTransactionsByDateRange (nowS startDate endDate : String) (S : State) : State × Nat :=
  let toArchive := S.transactions.filter
    (fun t => decide (startDate ≤ t.date) && decide (t.date ≤ endDate))
  if toArchive.isEmpty then (S, 0)
  else
    ({ S with
        archived := S.archived ++ archiveCopies nowS S.nextArchivedId toArchive,
        nextArchivedId := S.nextArchivedId + toArchive.length,
        transactions := S.transactions.filter
          (fun t => !(decide (startDate ≤ t.date) && decide (t.date ≤ endDate))) },
     toArchive.length)

/-- `restoreArchivedTransaction`: returns `false` when no archived row has
the given id; otherwise re-inserts the row's data into `transactions`
under a fresh id, deletes the archived row, and returns `true`.  The
trailing reload calls have no store effect (see
`autoArchiveOldTransactions`). -/
def restoreArchivedTransaction (S : State) (archivedId : Nat) : State × Bool :=
  match S.archived.find? (fun a => a.id == archivedId) with
  | none => (S, false)
  | some a =>
      ({ S with
          transactions :=
            { id := S.nextTxId, type := a.type, amount := a.amount,
              category := a.category, description := a.description,
              location := a.location, date := a.date : Tx } :: S.transactions,
          nextTxId := S.nextTxId + 1,
          archived := S.archived.filter (fun x => x.id != archivedId) }, true)

/-- `deleteArchivedTransaction`: permanent removal of an archived row. -/
def deleteArchivedTransaction (S : State) (archivedId : Nat) : State :=
  { S with archived := S.archived.filter (fun x => x.id != archivedId) }

/-- One row of a `searchAllTransactions` result set: the transaction
columns plus the `source` discriminator selected by the query. -/
structure SearchResult where
  rid : Nat
  type : String
  amount : Money
  category : String
  description : String
  location : String
  date : String
  source : String
deriving Repr, DecidableEq

/-- SQLite `LIKE` pattern matching over character lists, with explicit
fuel.  `%` matches any sequence of characters (including none), `_`
matches exactly one character, and any other pattern character matches a
single character up to ASCII case folding, exactly SQLite's default
(no-ESCAPE) LIKE semantics.  Every step consumes at least one character
of the pattern or of the string, so fuel exceeding their combined length
is never exhausted. -/
def likeMatchFuel : Nat → List Char → List Char → Bool
  | 0, _, _ => false
  | _ + 1, [], [] => true
  | _ + 1, [], _ :: _ => false
  | fuel + 1, p :: ps, s =>
      if p = '%' then
        likeMatchFuel fuel ps s ||
          (match s with
           | [] => false
           | _ :: cs => likeMatchFuel fuel (p :: ps) cs)
      else
        match s with
        | [] => false
        | d :: cs =>
            (if p = '_' then true else p.toLower == d.toLower) && likeMatchFuel fuel ps cs

/-- SQLite `LIKE` with sufficient fuel. -/
def likeMatches (pattern s : List Char) : Bool :=
  likeMatchFuel (pattern.length + s.length + 1) pattern s

/-- SQLite `field LIKE ?` with the bound pattern `'%' + term + '%'`, as
both search queries build it: the term is interpolated into the pattern,
so `%` and `_` inside the term keep their wildcard meaning. -/
def likeContains (field term : String) : Bool :=
  likeMatches ('%' :: (term.data ++ ['%'])) field.data

/-- The spec's reading of a search hit, stated from its words rather
than the query: the term occurs in the field as a case-insensitive
substring (to be compared against `likeContains`, which diverges from
this reading on terms containing the SQL wildcards `%` or `_`). -/
def substrMatches (field term : String) : Bool :=
  decide (List.IsInfix (term.data.map Char.toLower) (field.data.map Char.toLower))

/-- The WHERE clause of both search queries: the term matches the
category, the description or the location. -/
def rowMatches (term category description location : String) : Bool :=
  likeContains category term || likeContains description term || likeContains location term

/-- The spec's reading of the WHERE clause: case-insensitive substring
match over category, description or location. -/
def specRowMatches (term category description location : String) : Bool :=
  substrMatches category term || substrMatches description term || substrMatches location term

/-- An active search row, tagged `"active"`. -/
def activeResult (t : Tx) : SearchResult :=
  { rid := t.id, type := t.type, amount := t.amount, category := t.category,
    description := t.description, location := t.location, date := t.date,
    source := "active" }

/-- An archived search row, tagged `"archived"`. -/
def archivedResult (a : ArchivedTx) : SearchResult :=
  { rid := a.id, type := a.type, amount := a.amount, category := a.category,
    description := a.description, location := a.location, date := a.date,
    source := "archived" }

/-- Descending date order on result rows. -/
def dateDescRel (a b : SearchResult) : Prop := b.date ≤ a.date

instance : DecidableRel dateDescRel := fun a b => String.decidableLE b.date a.date

instance : IsTotal SearchResult dateDescRel := ⟨fun a b => le_total b.date a.date⟩

instance : IsTrans SearchResult dateDescRel := ⟨fun _ _ _ h1 h2 => le_trans h2 h1⟩

/-- The `ORDER BY date DESC` of each search query, modelled as a sort. -/
def sortByDateDesc (l : List SearchResult) : List SearchResult :=
  List.insertionSort dateDescRel l

/-- `searchAllTransactions`: the active result set, followed (when
`includeArchived` is set) by the archived result set.  Each set is sorted
date-descending by its own query; the source concatenates them without
re-sorting. -/
def searchAllTransactions (S : State) (term : String) (includeArchived : Bool) :
    List SearchResult :=
  let active := sortByDateDesc
    ((S.transactions.filter (fun t => rowMatches term t.category t.description t.location)).map
      activeResult)
  if !includeArchived then active
  else active ++ sortByDateDesc
    ((S.archived.filter (fun a => rowMatches term a.category a.description a.location)).map
      archivedResult)

/-- A result list in descending date order. -/
def DescSorted (l : List SearchResult) : Prop :=
  List.Sorted dateDescRel l

/-- Signed contribution of an active transaction to its asset's balance:
positive for income, negative for expense, zero for any other type (whose
balance effect every operation skips). -/
def signedAmount (t : Tx) : Money :=
  if t.type = "income" then t.amount
  else if t.type = "expense" then -t.amount
  else 0

/-- Signed sum of the active transactions located at a given asset name. -/
def signedSum (txs : List Tx) (name : String) : Money :=
  ((txs.filter (fun t => t.location == name)).map signedAmount).sum

/-- The reconciliation invariant of the spec: every asset's amount is its
opening balance plus the signed sum of the active transactions located at
its name. -/
def AssetInvariant (baseline : String → Money) (S : State) : Prop :=
  ∀ a ∈ S.assets, a.amount = baseline a.name + signedSum S.transactions a.name

/-- Structural well-formedness guaranteed by the store schema and the data
model: asset names are a unique, non-empty lookup key, primary-key ids are
unique, and the AUTOINCREMENT counter is ahead of every existing row. -/
def WellFormed (S : State) : Prop :=
  (S.assets.map Asset.name).Nodup ∧
  (S.assets.map Asset.id).Nodup ∧
  (∀ a ∈ S.assets, a.name ≠ "") ∧
  (S.transactions.map Tx.id).Nodup ∧
  (∀ t ∈ S.transactions, t.id < S.nextTxId) ∧
  (S.budgets.map Budget.id).Nodup

/-- Every budget's spent accumulator is non-negative. -/
def BudgetNonneg (S : State) : Prop :=
  ∀ b ∈ S.budgets, 0 ≤ b.spent

/-- A Reconciliation Engine operation. -/
inductive Op where
  | create (i : TxInput)
  | update (u : Tx)
  | delete (id : Nat)
  | restore (t : Tx)
deriving Repr, DecidableEq

/-- State reached by one operation; `nowS` is the wall-clock ISO string at
the time of the call. -/
def applyOp (nowS : String) (S : State) : Op → State
  | Op.create i => (addTransaction nowS S i).1
  | Op.update u => updateTransaction S u
  | Op.delete id => (deleteTransaction nowS S id).1
  | Op.restore t => (undoDeleteTransaction nowS S t).1

/-- State reached by a sequence of operations, each timestamped. -/
def applyOps (S : State) (ops : List (String × Op)) : State :=
  ops.foldl (fun s p => applyOp p.1 s p.2) S

/-- Side conditions under which an update preserves the reconciliation
invariant: the original and updated types are the two recognised ones, and
the update does not move a transaction from a location that resolves to no
asset onto one that does (in that situation the source skips the whole
asset adjustment, including the credit to the new asset). -/
def UpdateSafe (S : State) (u : Tx) : Prop :=
  ∀ o, S.transactions.find? (fun t => t.id == u.id) = some o →
    (o.type = "income" ∨ o.type = "expense") ∧
    (u.type = "income" ∨ u.type = "expense") ∧
    ((∃ a ∈ S.assets, a.name = o.location) ∨ (∀ a ∈ S.assets, a.name ≠ u.location))

/-- Per-operation side condition for invariant preservation; only updates
are constrained. -/
def OpSafe (S : State) : Op → Prop
  | Op.update u => UpdateSafe S u
  | _ => True

/-- Every operation of the sequence satisfies its side condition in the
state it runs in. -/
def OpsSafe : State → List (String × Op) → Prop
  | _, [] => True
  | S, p :: rest => OpSafe S p.2 ∧ OpsSafe (applyOp p.1 S p.2) rest

/-- The operation's transaction amount is positive, as the spec requires
of transaction inputs. -/
def OpAmountPos : Op → Prop
  | Op.create i => 0 < i.amount.getD 0
  | Op.update u => 0 < u.amount
  | Op.delete _ => True
  | Op.restore t => 0 < t.amount

/-- Claim-shaped form of an asset balance adjustment: the asset whose name
equals the (non-empty) location has `delta` added to its amount; every
other asset is untouched. -/
def adjustAssets (assets : List Asset) (loc : String) (delta : Money) : List Asset :=
  assets.map (fun a => if a.name = loc ∧ loc ≠ "" then { a with amount := a.amount + delta } else a)

/-- Claim-shaped form of the budget effect of a created expense: every
budget of the (non-empty) category has the amount added to its spent. -/
def spentAfterAdd (m : List Budget) (v : TxData) : List Budget :=
  if v.type = "expense" ∧ v.category ≠ "" then
    m.map (fun b => if b.category = v.category then { b with spent := b.spent + v.amount } else b)
  else m

/-- Claim-shaped form of the budget effect of a deleted expense: every
budget of the (non-empty) category has the amount subtracted from its
spent, floored at zero. -/
def spentAfterDelete (m : List Budget) (t : Tx) : List Budget :=
  if t.type = "expense" ∧ t.category ≠ "" then
    m.map (fun b => if b.category = t.category then { b with spent := max 0 (b.spent - t.amount) } else b)
  else m

/-- The write groups of `addTransaction`: the source wraps all its
statements in a single `db.withTransactionAsync` block, so they form one
atomic group. -/
def addTransactionPlan (nowS : String) (S : State) (i : TxInput) : List (List Write) :=
  [addTransactionWrites nowS S i]

/-- The write groups of `deleteTransaction`: one atomic
`withTransactionAsync` group once the transaction is found, nothing
otherwise. -/
def deleteTransactionPlan (nowS : String) (S : State) (id : Nat) : List (List Write) :=
  match S.transactions.find? (fun t => t.id == id) with
  | none => []
  | some t => [deleteTransactionWrites nowS S id t]

/-- The write groups of `updateTransaction`: the source issues each of its
statements as a bare `runAsync`, with no `withTransactionAsync` around
them, so every statement is its own group. -/
def updateTransactionPlan (S : State) (u : Tx) : List (List Write) :=
  (updateTransactionWrites S u).map (fun w => [w])

/-- The store state after executing a prefix-closed sequence of write
groups; each group is either applied whole or not started. -/
def execPlan (S : State) (plan : List (List Write)) : State :=
  plan.foldl applyWrites S

/-- The store state when the operation dies right before its `j`-th write
group: the first `j` groups are persisted, the rest never run. -/
def execPlanAborted (S : State) (plan : List (List Write)) (j : Nat) : State :=
  execPlan S (plan.take j)

/-- A state with one asset and one ghost-located transaction: the
transaction's location matches no asset, so the reconciliation invariant
holds vacuously for it. -/
def exS0 : State :=
  { assets := [{ id := 1, name := "Wallet", amount := 100, currency := "PHP", image := "" }],
    transactions := [{ id := 1, type := "expense", amount := 30, category := "Food",
                       description := "", location := "Ghost", date := "2025-01-01" }],
    budgets := [], archived := [], history := [], recentlyDeleted := [],
    nextTxId := 2, nextArchivedId := 1, nextHistoryId := 1 }

/-- Opening balances for the example states: Wallet opened at 100. -/
def base0 : String → Money := fun n => if n = "Wallet" then 100 else 0

/-- An update moving the ghost-located transaction onto the existing
asset, changing nothing else. -/
def u0 : Tx := { id := 1, type := "expense", amount := 30, category := "Food",
                 description := "", location := "Wallet", date := "2025-01-01" }

/-- Scenario A of the spec: Wallet at 100, an empty transaction table and
one Food budget with nothing spent. -/
def sA : State :=
  { assets := [{ id := 1, name := "Wallet", amount := 100, currency := "PHP", image := "" }],
    transactions := [],
    budgets := [{ id := 1, category := "Food", amount := 200, period := "Monthly", spent := 0 }],
    archived := [], history := [], recentlyDeleted := [],
    nextTxId := 1, nextArchivedId := 1, nextHistoryId := 1 }

/-- Scenario A input: an Expense of 30 on Wallet, category Food. -/
def iA : TxInput :=
  { type := some "Expense", amount := some 30, category := some "Food",
    description := none, location := some "Wallet", date := some "2025-06-01" }

/-- An update of the Scenario-A transaction that raises its amount; the
location is unchanged, so the plan holds a transaction-row write and an
asset-row write. -/
def uB : Tx := { id := 1, type := "expense", amount := 50, category := "Food",
                 description := "", location := "Wallet", date := "2025-06-01" }

/-- The state after Scenario A: Wallet at 70, the expense stored, 30
spent on the Food budget's accumulator read as 0 before the add. -/
def s6 : State :=
  { assets := [{ id := 1, name := "Wallet", amount := 70, currency := "PHP", image := "" }],
    transactions := [{ id := 1, type := "expense", amount := 30, category := "Food",
                       description := "", location := "Wallet", date := "2025-06-01" }],
    budgets := [{ id := 1, category := "Food", amount := 200, period := "Monthly", spent := 0 }],
    archived := [], history := [], recentlyDeleted := [],
    nextTxId := 2, nextArchivedId := 1, nextHistoryId := 1 }

/-- The stored Scenario-A transaction, as the snapshot handed to the undo
path. -/
def t6 : Tx := { id := 1, type := "expense", amount := 30, category := "Food",
                 description := "", location := "Wallet", date := "2025-06-01" }

/-- Like `s6`, but the Food budget's spent accumulator already covers the
stored expense. -/
def s6w : State :=
  { assets := [{ id := 1, name := "Wallet", amount := 70, currency := "PHP", image := "" }],
    transactions := [{ id := 1, type := "expense", amount := 30, category := "Food",
                       description := "", location := "Wallet", date := "2025-06-01" }],
    budgets := [{ id := 1, category := "Food", amount := 200, period := "Monthly", spent := 30 }],
    archived := [], history := [], recentlyDeleted := [],
    nextTxId := 2, nextArchivedId := 1, nextHistoryId := 1 }

/-- An `addTransaction` input whose amount is missing (a non-numeric JS
value): `parseFloat` yields `NaN` and `|| 0` turns it into `0`. -/
def badInput : TxInput :=
  { type := some "Expense", amount := none, category := some "Food",
    description := none, location := some "Wallet", date := some "2025-06-01" }

/-- An `addTransaction` input with a negative amount. -/
def negInput : TxInput :=
  { type := some "Expense", amount := some (-5), category := some "Food",
    description := none, location := some "Wallet", date := some "2025-06-01" }

/-- An active transaction older than the archived one, so the active
search rows predate the archived search rows. -/
def tx9 : Tx :=
  { id := 1, type := "expense", amount := 5, category := "Food",
    description := "", location := "Wallet", date := "2024-01-01" }

/-- An archived transaction newer than the active one. -/
def ar9 : ArchivedTx :=
  { id := 1, originalId := 7, type := "income", amount := 9, category := "Food",
    description := "", location := "Wallet", date := "2025-01-01", archivedDate := "2025-06-01" }

/-- A state with one old active transaction and one newer archived one. -/
def s9 : State :=
  { assets := [], transactions := [tx9],
    budgets := [],
    archived := [ar9],
    history := [], recentlyDeleted := [],
    nextTxId := 2, nextArchivedId := 2, nextHistoryId := 1 }

instance (baseline : String → Money) (S : State) : Decidable (AssetInvariant baseline S) := by
  unfold AssetInvariant; infer_instance

instance (S : State) : Decidable (WellFormed S) := by
  unfold WellFormed; infer_instance

instance (S : State) : Decidable (BudgetNonneg S) := by
  unfold BudgetNonneg; infer_instance

instance (l : List SearchResult) : Decidable (DescSorted l) := by
  unfold DescSorted List.Sorted; infer_instance

end FinanceApp

namespace FinanceApp

theorem applyWrites_nil (S : State) : applyWrites S [] = S := rfl

theorem applyWrites_cons (S : State) (w : Write) (ws : List Write) :
    applyWrites S (w :: ws) = applyWrites (applyWrite S w) ws := rfl

theorem applyWrites_append (S : State) (xs ys : List Write) :
    applyWrites S (xs ++ ys) = applyWrites (applyWrites S xs) ys :=
  List.foldl_append ..

/-- Removing rows by an id that no row carries is a no-op. -/
theorem filter_id_ne_self (xs : List Tx) (i : Nat) (h : ∀ x ∈ xs, x.id ≠ i) :
    xs.filter (fun x => x.id != i) = xs :=
  List.filter_eq_self.mpr (fun x hx => by simpa using h x hx)

/-- Replacing the row of an id that no row carries is a no-op. -/
theorem map_replace_noop (xs : List Tx) (u : Tx) (h : ∀ x ∈ xs, x.id ≠ u.id) :
    xs.map (fun t => if t.id == u.id then u else t) = xs := by
  have := List.map_congr_left (l := xs) (f := fun t => if t.id == u.id then u else t) (g := id)
    (fun x hx => by simp [h x hx])
  simpa using this

theorem signedSum_nil (name : String) : signedSum [] name = 0 := rfl

theorem signedSum_cons (t : Tx) (txs : List Tx) (name : String) :
    signedSum (t :: txs) name =
      (if t.location = name then signedAmount t else 0) + signedSum txs name := by
  by_cases h : t.location = name <;>
    simp [signedSum, List.filter_cons, h]

/-- Deleting the unique row with a given id removes exactly its signed
contribution. -/
theorem signedSum_filter_out (txs : List Tx) (t : Tx) (name : String)
    (ht : t ∈ txs) (hnd : (txs.map Tx.id).Nodup) :
    signedSum (txs.filter (fun x => x.id != t.id)) name =
      signedSum txs name - (if t.location = name then signedAmount t else 0) := by
  induction txs with
  | nil => cases ht
  | cons x xs ih =>
      have hnd' : (xs.map Tx.id).Nodup := (List.nodup_cons.mp hnd).2
      have hxid : x.id ∉ xs.map Tx.id := (List.nodup_cons.mp hnd).1
      rcases List.mem_cons.mp ht with rfl | htx
      · have hall : ∀ y ∈ xs, y.id ≠ t.id := by
          intro y hy hcon
          exact hxid (hcon ▸ List.mem_map_of_mem Tx.id hy)
        have : (t :: xs).filter (fun x => x.id != t.id) = xs.filter (fun x => x.id != t.id) := by
          simp [List.filter_cons]
        rw [this, filter_id_ne_self xs t.id hall, signedSum_cons]
        ring
      · have hxt : x.id ≠ t.id := by
          intro hcon
          exact hxid (hcon ▸ List.mem_map_of_mem Tx.id htx)
        have : (x :: xs).filter (fun y => y.id != t.id) =
            x :: xs.filter (fun y => y.id != t.id) := by
          simp [List.filter_cons, hxt]
        rw [this, signedSum_cons, signedSum_cons, ih htx hnd']
        ring

/-- Replacing the unique row with a given id exchanges its signed
contribution for the new row's one. -/
theorem signedSum_replace (txs : List Tx) (o u : Tx) (name : String)
    (hfind : txs.find? (fun x => x.id == u.id) = some o)
    (hnd : (txs.map Tx.id).Nodup) :
    signedSum (txs.map (fun t => if t.id == u.id then u else t)) name =
      signedSum txs name - (if o.location = name then signedAmount o else 0)
        + (if u.location = name then signedAmount u else 0) := by
  induction txs with
  | nil => simp [List.find?] at hfind
  | cons x xs ih =>
      have hnd' : (xs.map Tx.id).Nodup := (List.nodup_cons.mp hnd).2
      have hxid : x.id ∉ xs.map Tx.id := (List.nodup_cons.mp hnd).1
      by_cases hx : x.id = u.id
      · have : (x :: xs).find? (fun y => y.id == u.id) = some x := by
          simp [List.find?_cons, hx]
        have hox : o = x := by rw [this] at hfind; exact (Option.some_inj.mp hfind).symm
        have hall : ∀ y ∈ xs, y.id ≠ u.id := by
          intro y hy hcon
          exact hxid ((hx.trans hcon.symm) ▸ List.mem_map_of_mem Tx.id hy)
        have hmap : (x :: xs).map (fun t => if t.id == u.id then u else t) =
            u :: xs := by
          rw [List.map_cons, map_replace_noop xs u hall]
          simp [hx]
        rw [hmap, signedSum_cons, signedSum_cons, hox]
        ring
      · have hfind' : xs.find? (fun y => y.id == u.id) = some o := by
          have : ((x :: xs).find? fun y => y.id == u.id) = xs.find? (fun y => y.id == u.id) := by
            simp [List.find?_cons, hx]
          rw [this] at hfind; exact hfind
        have hmap : (x :: xs).map (fun t => if t.id == u.id then u else t) =
            x :: xs.map (fun t => if t.id == u.id then u else t) := by
          simp [hx]
        rw [hmap, signedSum_cons, signedSum_cons, ih hfind' hnd']
        ring

/-- An asset write that only changes the amount of an existing row leaves
the lists of names and ids of the asset table unchanged. -/
theorem asset_write_names_ids (assets : List Asset) (a1 a2 : Asset)
    (hid : (assets.map Asset.id).Nodup) (ha1 : a1 ∈ assets)
    (hname : a2.name = a1.name) (hid2 : a2.id = a1.id) :
    (assets.map (fun y => if y.id == a2.id then a2 else y)).map Asset.name
        = assets.map Asset.name ∧
    (assets.map (fun y => if y.id == a2.id then a2 else y)).map Asset.id
        = assets.map Asset.id := by
  constructor
  · rw [List.map_map]
    refine List.map_congr_left (fun y hy => ?_)
    by_cases h : y.id = a2.id
    · have hy1 : y = a1 := List.inj_on_of_nodup_map hid hy ha1 (by rw [h, hid2])
      subst hy1
      simp [h, hname]
    · simp [h]
  · rw [List.map_map]
    refine List.map_congr_left (fun y hy => ?_)
    by_cases h : y.id = a2.id
    · simp [h, hid2]
    · simp [h]

/-- Budget rows are non-negative after a write list whose budget writes
all carry non-negative spent values. -/
theorem budgetNonneg_applyWrites (S : State) (ws : List Write)
    (hS : BudgetNonneg S)
    (h : ∀ w ∈ ws, ∀ b, w = Write.updateBudgetRow b → 0 ≤ b.spent) :
    BudgetNonneg (applyWrites S ws) := by
  induction ws generalizing S with
  | nil => exact hS
  | cons w ws ih =>
      rw [applyWrites_cons]
      refine ih (applyWrite S w) ?_ (fun w1 hw1 => h w1 (List.mem_cons_of_mem _ hw1))
      cases w with
      | updateBudgetRow b =>
          intro x hx
          simp only [applyWrite] at hx
          rcases List.mem_map.mp hx with ⟨y, hy, rfl⟩
          by_cases hid : y.id = b.id
          · simpa [hid] using h _ (List.mem_cons_self _ _) b rfl
          · simpa [hid] using hS y hy
      | insertTx t => exact hS
      | updateTxRow u => exact hS
      | updateAssetRow a => exact hS
      | insertHistory hrec => exact hS
      | deleteTxRow i => exact hS

/-- Budget-row writes leave every non-budget table unchanged. -/
theorem budgetRows_frame (S : State) (l : List Budget) (g : Budget → Budget) :
    (applyWrites S (l.map (fun b => Write.updateBudgetRow (g b)))).assets = S.assets ∧
    (applyWrites S (l.map (fun b => Write.updateBudgetRow (g b)))).transactions = S.transactions ∧
    (applyWrites S (l.map (fun b => Write.updateBudgetRow (g b)))).nextTxId = S.nextTxId := by
  induction l generalizing S with
  | nil => exact ⟨rfl, rfl, rfl⟩
  | cons b l ih =>
      simpa [applyWrites_cons, applyWrite] using
        ih (applyWrite S (Write.updateBudgetRow (g b)))

end FinanceApp

namespace FinanceApp

theorem adjustAssets_empty (assets : List Asset) (delta : Money) :
    adjustAssets assets "" delta = assets := by
  have := List.map_congr_left
    (l := assets)
    (f := fun a => if a.name = "" ∧ ("" : String) ≠ "" then { a with amount := a.amount + delta } else a)
    (g := id) (fun a _ => by simp)
  simpa [adjustAssets] using this

theorem adjustAssets_not_found (assets : List Asset) (loc : String) (delta : Money)
    (h : ∀ a ∈ assets, a.name ≠ loc) :
    adjustAssets assets loc delta = assets := by
  have := List.map_congr_left
    (l := assets)
    (f := fun a => if a.name = loc ∧ loc ≠ "" then { a with amount := a.amount + delta } else a)
    (g := id) (fun a ha => by simp [h a ha])
  simpa [adjustAssets] using this

theorem adjustAssets_names (assets : List Asset) (loc : String) (delta : Money) :
    (adjustAssets assets loc delta).map Asset.name = assets.map Asset.name := by
  rw [adjustAssets, List.map_map]
  refine List.map_congr_left (fun a _ => ?_)
  by_cases h : a.name = loc ∧ loc ≠ "" <;> simp [h]

theorem adjustAssets_ids (assets : List Asset) (loc : String) (delta : Money) :
    (adjustAssets assets loc delta).map Asset.id = assets.map Asset.id := by
  rw [adjustAssets, List.map_map]
  refine List.map_congr_left (fun a _ => ?_)
  by_cases h : a.name = loc ∧ loc ≠ "" <;> simp [h]

/-- A by-id row replacement produced by a location lookup equals the
claim-shaped by-name adjustment, given unique names and ids. -/
theorem replaceById_eq_adjust (assets : List Asset) (a1 : Asset) (loc : String) (delta : Money)
    (hnames : (assets.map Asset.name).Nodup) (hids : (assets.map Asset.id).Nodup)
    (hfind : assets.find? (fun a => a.name == loc) = some a1) (hloc : loc ≠ "") :
    assets.map (fun y => if y.id == a1.id then { a1 with amount := a1.amount + delta } else y) =
      adjustAssets assets loc delta := by
  have ha1 : a1 ∈ assets := List.mem_of_find?_eq_some hfind
  have ha1name : a1.name = loc := by simpa using List.find?_some hfind
  refine List.map_congr_left (fun y hy => ?_)
  by_cases h : y.id = a1.id
  · have hy1 : y = a1 := List.inj_on_of_nodup_map hids hy ha1 h
    subst hy1
    simp [ha1name, hloc]
  · have hname : y.name ≠ loc := by
      intro hcon
      exact h (congrArg Asset.id (List.inj_on_of_nodup_map hnames hy ha1 (hcon.trans ha1name.symm)))
    simp [h, hname]

/-- Budget-row writes leave every non-budget component unchanged. -/
theorem budget_writes_frame (X : State) (ws : List Write)
    (h : ∀ w ∈ ws, ∃ b, w = Write.updateBudgetRow b) :
    (applyWrites X ws).assets = X.assets ∧
    (applyWrites X ws).transactions = X.transactions ∧
    (applyWrites X ws).nextTxId = X.nextTxId ∧
    (applyWrites X ws).history = X.history ∧
    (applyWrites X ws).nextHistoryId = X.nextHistoryId ∧
    (applyWrites X ws).recentlyDeleted = X.recentlyDeleted ∧
    (applyWrites X ws).archived = X.archived ∧
    (applyWrites X ws).nextArchivedId = X.nextArchivedId := by
  induction ws generalizing X with
  | nil => exact ⟨rfl, rfl, rfl, rfl, rfl, rfl, rfl, rfl⟩
  | cons w ws ih =>
      obtain ⟨b, rfl⟩ := h w (List.mem_cons_self _ _)
      simpa [applyWrites_cons, applyWrite] using
        ih (applyWrite X (Write.updateBudgetRow b)) (fun w hw => h w (List.mem_cons_of_mem _ hw))

/-- Asset-row writes leave every non-asset component unchanged. -/
theorem asset_writes_frame (X : State) (ws : List Write)
    (h : ∀ w ∈ ws, ∃ a, w = Write.updateAssetRow a) :
    (applyWrites X ws).transactions = X.transactions ∧
    (applyWrites X ws).budgets = X.budgets ∧
    (applyWrites X ws).nextTxId = X.nextTxId ∧
    (applyWrites X ws).history = X.history ∧
    (applyWrites X ws).nextHistoryId = X.nextHistoryId ∧
    (applyWrites X ws).recentlyDeleted = X.recentlyDeleted ∧
    (applyWrites X ws).archived = X.archived ∧
    (applyWrites X ws).nextArchivedId = X.nextArchivedId := by
  induction ws generalizing X with
  | nil => exact ⟨rfl, rfl, rfl, rfl, rfl, rfl, rfl, rfl⟩
  | cons w ws ih =>
      obtain ⟨a, rfl⟩ := h w (List.mem_cons_self _ _)
      simpa [applyWrites_cons, applyWrite] using
        ih (applyWrite X (Write.updateAssetRow a)) (fun w hw => h w (List.mem_cons_of_mem _ hw))

/-- No write changes the list of budget-row ids. -/
theorem applyWrites_budget_ids (X : State) (ws : List Write) :
    (applyWrites X ws).budgets.map Budget.id = X.budgets.map Budget.id := by
  induction ws generalizing X with
  | nil => rfl
  | cons w ws ih =>
      rw [applyWrites_cons, ih]
      cases w with
      | updateBudgetRow b =>
          simp only [applyWrite, List.map_map]
          refine List.map_congr_left (fun x _ => ?_)
          by_cases h : x.id = b.id <;> simp [h]
      | insertTx t => rfl
      | updateTxRow u => rfl
      | updateAssetRow a => rfl
      | insertHistory hrec => rfl
      | deleteTxRow i => rfl

/-- No write changes the list of asset-row ids. -/
theorem applyWrites_asset_ids (X : State) (ws : List Write) :
    (applyWrites X ws).assets.map Asset.id = X.assets.map Asset.id := by
  induction ws generalizing X with
  | nil => rfl
  | cons w ws ih =>
      rw [applyWrites_cons, ih]
      cases w with
      | updateAssetRow a =>
          simp only [applyWrite, List.map_map]
          refine List.map_congr_left (fun x _ => ?_)
          by_cases h : x.id = a.id <;> simp [h]
      | insertTx t => rfl
      | updateTxRow u => rfl
      | updateBudgetRow b => rfl
      | insertHistory hrec => rfl
      | deleteTxRow i => rfl

/-- Sequential by-id row updates with pairwise distinct target ids, each
matching exactly its own source row, act as a single map. -/
theorem rowUpdates_foldl_eq (g : Budget → Budget) (hgid : ∀ b, (g b).id = b.id) :
    ∀ (l m : List Budget), (l.map Budget.id).Nodup →
      (∀ b ∈ l, ∀ x ∈ m, x.id = b.id → x = b) →
      l.foldl (fun mm b => mm.map (fun x => if x.id == (g b).id then g b else x)) m =
        m.map (fun x => if x.id ∈ l.map Budget.id then g x else x)
  | [], m, _, _ => by simp
  | b :: l, m, hnd, hmatch => by
      have hnd' : (l.map Budget.id).Nodup := (List.nodup_cons.mp hnd).2
      have hbid : b.id ∉ l.map Budget.id := (List.nodup_cons.mp hnd).1
      have step : m.map (fun x => if x.id == (g b).id then g b else x) =
          m.map (fun x => if x.id = b.id then g x else x) := by
        refine List.map_congr_left (fun x hx => ?_)
        by_cases h : x.id = b.id
        · have hxb : x = b := hmatch b (List.mem_cons_self _ _) x hx h
          simp [h, hgid, hxb]
        · simp [h, hgid]
      have hmatch' : ∀ c ∈ l, ∀ x ∈ m.map (fun x => if x.id = b.id then g x else x),
          x.id = c.id → x = c := by
        intro c hc x hx hxc
        rcases List.mem_map.mp hx with ⟨y, hy, rfl⟩
        by_cases h : y.id = b.id
        · exfalso
          have : (g y).id = c.id := by simpa [h] using hxc
          rw [hgid] at this
          exact hbid (by
            rw [← h, this]
            exact List.mem_map_of_mem Budget.id hc)
        · have : y.id = c.id := by simpa [h] using hxc
          simpa [h] using hmatch c (List.mem_cons_of_mem _ hc) y hy this
      calc (b :: l).foldl (fun mm b => mm.map (fun x => if x.id == (g b).id then g b else x)) m
          = l.foldl (fun mm b => mm.map (fun x => if x.id == (g b).id then g b else x))
              (m.map (fun x => if x.id = b.id then g x else x)) := by
            rw [List.foldl_cons, step]
        _ = (m.map (fun x => if x.id = b.id then g x else x)).map
              (fun x => if x.id ∈ l.map Budget.id then g x else x) := by
            exact rowUpdates_foldl_eq g hgid l _ hnd' hmatch'
        _ = m.map (fun x => if x.id ∈ (b :: l).map Budget.id then g x else x) := by
            rw [List.map_map]
            refine List.map_congr_left (fun x hx => ?_)
            simp only [Function.comp_apply]
            by_cases h : x.id = b.id
            · rw [if_pos h]
              have hmem : ¬ (g x).id ∈ l.map Budget.id := by rw [hgid, h]; exact hbid
              rw [if_neg hmem, List.map_cons,
                if_pos (show x.id ∈ b.id :: l.map Budget.id by
                  rw [h]; exact List.mem_cons_self _ _)]
            · rw [if_neg h]
              by_cases h2 : x.id ∈ l.map Budget.id
              · rw [if_pos h2, List.map_cons, if_pos (List.mem_cons_of_mem _ h2)]
              · rw [if_neg h2, List.map_cons,
                  if_neg (show ¬ x.id ∈ b.id :: l.map Budget.id by
                    intro hcon
                    rcases List.mem_cons.mp hcon with hb | hl
                    · exact h hb
                    · exact h2 hl)]

/-- A one-pass filtered budget update applied as sequential row writes
equals the claim-shaped per-category map, given unique budget ids. -/
theorem budget_filter_updates (X : State) (m : List Budget) (hm : X.budgets = m)
    (p : Budget → Bool) (g : Budget → Budget)
    (hgid : ∀ b, (g b).id = b.id) (hbids : (m.map Budget.id).Nodup) :
    (applyWrites X ((m.filter p).map (fun b => Write.updateBudgetRow (g b)))).budgets =
      m.map (fun b => if p b then g b else b) := by
  subst hm
  have hfold : ∀ (l : List Budget) (Y : State),
      (applyWrites Y (l.map (fun b => Write.updateBudgetRow (g b)))).budgets =
        l.foldl (fun mm b => mm.map (fun x => if x.id == (g b).id then g b else x)) Y.budgets := by
    intro l
    induction l with
    | nil => intro Y; rfl
    | cons b l ih =>
        intro Y
        rw [List.map_cons, applyWrites_cons, List.foldl_cons, ih]
        rfl
  rw [hfold]
  have hlnd : ((X.budgets.filter p).map Budget.id).Nodup :=
    (hbids.sublist (List.Sublist.map Budget.id (List.filter_sublist _)))
  have hmatch : ∀ b ∈ X.budgets.filter p, ∀ x ∈ X.budgets, x.id = b.id → x = b := by
    intro b hb x hx hxb
    exact List.inj_on_of_nodup_map hbids hx (List.mem_of_mem_filter hb) hxb
  rw [rowUpdates_foldl_eq g hgid _ _ hlnd hmatch]
  refine List.map_congr_left (fun x hx => ?_)
  by_cases h : p x
  · have : x.id ∈ (X.budgets.filter p).map Budget.id :=
      List.mem_map_of_mem Budget.id (List.mem_filter.mpr ⟨hx, h⟩)
    simp [this, h]
  · have : x.id ∉ (X.budgets.filter p).map Budget.id := by
      intro hcon
      rcases List.mem_map.mp hcon with ⟨c, hc, hcid⟩
      have : c = x := List.inj_on_of_nodup_map hbids (List.mem_of_mem_filter hc) hx hcid
      rw [this] at hc
      exact h (List.of_mem_filter hc)
    simp [this, h]

end FinanceApp

namespace FinanceApp

theorem spentAfterAdd_ids (m : List Budget) (v : TxData) :
    (spentAfterAdd m v).map Budget.id = m.map Budget.id := by
  rw [spentAfterAdd]
  by_cases h : v.type = "expense" ∧ v.category ≠ ""
  · rw [if_pos h, List.map_map]
    refine List.map_congr_left (fun b _ => ?_)
    by_cases hc : b.category = v.category <;> simp [hc]
  · rw [if_neg h]

theorem spentAfterDelete_ids (m : List Budget) (t : Tx) :
    (spentAfterDelete m t).map Budget.id = m.map Budget.id := by
  rw [spentAfterDelete]
  by_cases h : t.type = "expense" ∧ t.category ≠ ""
  · rw [if_pos h, List.map_map]
    refine List.map_congr_left (fun b _ => ?_)
    by_cases hc : b.category = t.category <;> simp [hc]
  · rw [if_neg h]

theorem txRow_map_ids (txs : List Tx) (u : Tx) :
    (txs.map (fun t => if t.id == u.id then u else t)).map Tx.id = txs.map Tx.id := by
  rw [List.map_map]
  refine List.map_congr_left (fun t _ => ?_)
  by_cases h : t.id = u.id <;> simp [h]

theorem bound_of_ids_eq (txs1 txs2 : List Tx) (n : Nat)
    (h : txs1.map Tx.id = txs2.map Tx.id) (hb : ∀ t ∈ txs2, t.id < n) :
    ∀ t ∈ txs1, t.id < n := by
  intro t ht
  have : t.id ∈ txs2.map Tx.id := h ▸ List.mem_map_of_mem Tx.id ht
  rcases List.mem_map.mp this with ⟨s, hs, hsid⟩
  exact hsid ▸ hb s hs

/-- The store state after `addTransaction`, in claim-shaped form: the
validated transaction is prepended under a fresh id, the located asset is
adjusted by the signed amount, matching budgets accumulate an expense
amount, and nothing else changes. -/
theorem addTransaction_state (nowS : String) (S : State) (i : TxInput)
    (hwf : WellFormed S) :
    (addTransaction nowS S i).1 =
      { S with
        transactions := createdTransaction nowS S i :: S.transactions,
        nextTxId := S.nextTxId + 1,
        assets := adjustAssets S.assets (validateTransaction nowS i).location
          (signedAmount (createdTransaction nowS S i)),
        budgets := spentAfterAdd S.budgets (validateTransaction nowS i) } := by
  obtain ⟨hnames, hids, hne, htxids, hbound, hbids⟩ := hwf
  set v := validateTransaction nowS i with hv
  set nt := createdTransaction nowS S i with hnt
  have hw : addTransactionWrites nowS S i =
      Write.insertTx nt ::
      ((if v.location = "" then []
        else
          match S.assets.find? (fun a => a.name == v.location) with
          | some a =>
              [Write.updateAssetRow { a with amount :=
                  if v.type = "income" then a.amount + v.amount
                  else if v.type = "expense" then a.amount - v.amount
                  else a.amount }]
          | none => []) ++
       (if v.type = "expense" ∧ v.category ≠ "" then
          (S.budgets.filter (fun b => b.category == v.category)).map
            (fun b => Write.updateBudgetRow { b with spent := b.spent + v.amount })
        else [])) := rfl
  have hframe : ∀ (X : State), X.budgets = S.budgets →
      applyWrites X
        (if v.type = "expense" ∧ v.category ≠ "" then
          (S.budgets.filter (fun b => b.category == v.category)).map
            (fun b => Write.updateBudgetRow { b with spent := b.spent + v.amount })
        else []) = { X with budgets := spentAfterAdd S.budgets v } := by
    intro X hX
    by_cases hb : v.type = "expense" ∧ v.category ≠ ""
    · rw [if_pos hb]
      have hf := budget_writes_frame X
        ((S.budgets.filter (fun b => b.category == v.category)).map
          (fun b => Write.updateBudgetRow { b with spent := b.spent + v.amount }))
        (by
          intro w hw1
          rcases List.mem_map.mp hw1 with ⟨b, _, rfl⟩
          exact ⟨_, rfl⟩)
      have hbud := budget_filter_updates X S.budgets hX
        (fun b => b.category == v.category)
        (fun b => { b with spent := b.spent + v.amount }) (fun b => rfl) hbids
      ext1
      · exact hf.1
      · exact hf.2.1
      · rw [hbud, spentAfterAdd, if_pos hb]
        exact List.map_congr_left (fun b _ => by by_cases hc : b.category = v.category <;> simp [hc])
      · exact hf.2.2.2.2.2.2.1
      · exact hf.2.2.2.1
      · exact hf.2.2.2.2.2.1
      · exact hf.2.2.1
      · exact hf.2.2.2.2.2.2.2
      · exact hf.2.2.2.2.1
    · rw [if_neg hb]
      rw [spentAfterAdd, if_neg hb]
      ext1 <;> first | rfl | exact hX
  show applyWrites S (addTransactionWrites nowS S i) = _
  rw [hw, applyWrites_cons]
  by_cases hloc : v.location = ""
  · rw [if_pos hloc, List.nil_append,
      hframe (applyWrite S (Write.insertTx nt)) rfl]
    ext1 <;> first
      | rfl
      | (rw [hloc, adjustAssets_empty]; rfl)
  · rw [if_neg hloc]
    rcases hfind : S.assets.find? (fun a => a.name == v.location) with _ | a1
    · rw [hfind, List.nil_append,
        hframe (applyWrite S (Write.insertTx nt)) rfl]
      have hnofind : ∀ a ∈ S.assets, a.name ≠ v.location := by
        intro a ha hcon
        have := List.find?_eq_none.mp hfind a ha
        simp [hcon] at this
      ext1 <;> first
        | rfl
        | (rw [adjustAssets_not_found S.assets v.location _ hnofind]; rfl)
    · rw [hfind, List.singleton_append, applyWrites_cons,
        hframe (applyWrite (applyWrite S (Write.insertTx nt))
          (Write.updateAssetRow { a1 with amount :=
            if v.type = "income" then a1.amount + v.amount
            else if v.type = "expense" then a1.amount - v.amount
            else a1.amount })) rfl]
      have hrow : (if v.type = "income" then a1.amount + v.amount
          else if v.type = "expense" then a1.amount - v.amount
          else a1.amount) = a1.amount + signedAmount nt := by
        have ht : nt.type = v.type := rfl
        have ha : nt.amount = v.amount := rfl
        by_cases h1 : v.type = "income"
        · rw [if_pos h1, signedAmount, ht, if_pos h1, ha]
        · rw [if_neg h1]
          by_cases h2 : v.type = "expense"
          · rw [if_pos h2, signedAmount, ht, if_neg h1, if_pos h2, ha]
            ring
          · rw [if_neg h2, signedAmount, ht, if_neg h1, if_neg h2]
            ring
      have hassets : (applyWrite (applyWrite S (Write.insertTx nt))
          (Write.updateAssetRow { a1 with amount :=
            if v.type = "income" then a1.amount + v.amount
            else if v.type = "expense" then a1.amount - v.amount
            else a1.amount })).assets = adjustAssets S.assets v.location (signedAmount nt) := by
        show S.assets.map (fun y => if y.id == ({ a1 with amount :=
            if v.type = "income" then a1.amount + v.amount
            else if v.type = "expense" then a1.amount - v.amount
            else a1.amount } : Asset).id then { a1 with amount :=
            if v.type = "income" then a1.amount + v.amount
            else if v.type = "expense" then a1.amount - v.amount
            else a1.amount } else y) = _
        rw [hrow]
        exact replaceById_eq_adjust S.assets a1 v.location (signedAmount nt)
          hnames hids hfind hloc
      ext1 <;> first
        | rfl
        | exact hassets


end FinanceApp

namespace FinanceApp

/-- The store state after a successful `deleteTransaction`, in
claim-shaped form. -/
theorem deleteTransaction_state (nowS : String) (S : State) (id : Nat) (t : Tx)
    (hwf : WellFormed S)
    (hfind : S.transactions.find? (fun x => x.id == id) = some t) :
    deleteTransaction nowS S id =
      ({ S with
          assets := adjustAssets S.assets t.location (-(signedAmount t)),
          budgets := spentAfterDelete S.budgets t,
          transactions := S.transactions.filter (fun x => x.id != id),
          history := S.history ++
            [{ id := S.nextHistoryId, transactionId := id, action := "delete",
               timestamp := nowS, snapshot := t }],
          nextHistoryId := S.nextHistoryId + 1,
          recentlyDeleted := t :: S.recentlyDeleted.take 4 }, true) := by
  obtain ⟨hnames, hids, hne, htxids, hbound, hbids⟩ := hwf
  have hw : deleteTransaction nowS S id =
      ({ applyWrites S (deleteTransactionWrites nowS S id t) with
          recentlyDeleted := t :: S.recentlyDeleted.take 4 }, true) := by
    unfold deleteTransaction
    rw [hfind]
  rw [hw]
  have hA : applyWrites S
      (if t.location = "" then []
       else
         match S.assets.find? (fun a => a.name == t.location) with
         | some a =>
             [Write.updateAssetRow { a with amount :=
                 if t.type = "income" then a.amount - t.amount
                 else if t.type = "expense" then a.amount + t.amount
                 else a.amount }]
         | none => []) =
      { S with assets := adjustAssets S.assets t.location (-(signedAmount t)) } := by
    by_cases hloc : t.location = ""
    · rw [if_pos hloc, applyWrites_nil]
      ext1 <;> first | rfl | (rw [hloc, adjustAssets_empty])
    · rw [if_neg hloc]
      rcases hfa : S.assets.find? (fun a => a.name == t.location) with _ | a1
      · rw [hfa, applyWrites_nil]
        have hnofind : ∀ a ∈ S.assets, a.name ≠ t.location := by
          intro a ha hcon
          have := List.find?_eq_none.mp hfa a ha
          simp [hcon] at this
        ext1 <;> first | rfl | (rw [adjustAssets_not_found S.assets t.location _ hnofind])
      · have hrow : (if t.type = "income" then a1.amount - t.amount
            else if t.type = "expense" then a1.amount + t.amount
            else a1.amount) = a1.amount + (-(signedAmount t)) := by
          by_cases h1 : t.type = "income"
          · rw [if_pos h1, signedAmount, if_pos h1]
            ring
          · rw [if_neg h1]
            by_cases h2 : t.type = "expense"
            · rw [if_pos h2, signedAmount, if_neg h1, if_pos h2]
              ring
            · rw [if_neg h2, signedAmount, if_neg h1, if_neg h2]
              ring
        have hassets : (applyWrite S
            (Write.updateAssetRow { a1 with amount :=
                if t.type = "income" then a1.amount - t.amount
                else if t.type = "expense" then a1.amount + t.amount
                else a1.amount })).assets =
            adjustAssets S.assets t.location (-(signedAmount t)) := by
          show S.assets.map (fun y => if y.id == ({ a1 with amount :=
              if t.type = "income" then a1.amount - t.amount
              else if t.type = "expense" then a1.amount + t.amount
              else a1.amount } : Asset).id then { a1 with amount :=
              if t.type = "income" then a1.amount - t.amount
              else if t.type = "expense" then a1.amount + t.amount
              else a1.amount } else y) = _
          rw [hrow]
          exact replaceById_eq_adjust S.assets a1 t.location (-(signedAmount t))
            hnames hids hfa hloc
        rw [hfa]
        ext1 <;> first | rfl | exact hassets
  have hB : ∀ (X : State), X.budgets = S.budgets →
      applyWrites X
        (if t.type = "expense" ∧ t.category ≠ "" then
          (S.budgets.filter (fun b => b.category == t.category)).map
            (fun b => Write.updateBudgetRow { b with spent := max 0 (b.spent - t.amount) })
        else []) = { X with budgets := spentAfterDelete S.budgets t } := by
    intro X hX
    by_cases hb : t.type = "expense" ∧ t.category ≠ ""
    · rw [if_pos hb]
      have hf := budget_writes_frame X
        ((S.budgets.filter (fun b => b.category == t.category)).map
          (fun b => Write.updateBudgetRow { b with spent := max 0 (b.spent - t.amount) }))
        (by
          intro w hw1
          rcases List.mem_map.mp hw1 with ⟨b, _, rfl⟩
          exact ⟨_, rfl⟩)
      have hbud := budget_filter_updates X S.budgets hX
        (fun b => b.category == t.category)
        (fun b => { b with spent := max 0 (b.spent - t.amount) }) (fun b => rfl) hbids
      ext1
      · exact hf.1
      · exact hf.2.1
      · rw [hbud, spentAfterDelete, if_pos hb]
        exact List.map_congr_left (fun b _ => by by_cases hc : b.category = t.category <;> simp [hc])
      · exact hf.2.2.2.2.2.2.1
      · exact hf.2.2.2.1
      · exact hf.2.2.2.2.2.1
      · exact hf.2.2.1
      · exact hf.2.2.2.2.2.2.2
      · exact hf.2.2.2.2.1
    · rw [if_neg hb]
      rw [spentAfterDelete, if_neg hb]
      ext1 <;> first | rfl | exact hX
  rw [deleteTransactionWrites, applyWrites_append, applyWrites_append, hA,
    hB { S with assets := adjustAssets S.assets t.location (-(signedAmount t)) } rfl]
  rfl

/-- The store state after `undoDeleteTransaction`: the re-created
transaction under a fresh id, plus the undo-buffer removal and the
`restore` history record. -/
theorem undoDeleteTransaction_state (nowS : String) (S : State) (t : Tx)
    (hwf : WellFormed S) :
    (undoDeleteTransaction nowS S t).1 =
      { S with
        transactions := createdTransaction nowS S (txToInput t) :: S.transactions,
        nextTxId := S.nextTxId + 1,
        assets := adjustAssets S.assets (validateTransaction nowS (txToInput t)).location
          (signedAmount (createdTransaction nowS S (txToInput t))),
        budgets := spentAfterAdd S.budgets (validateTransaction nowS (txToInput t)),
        recentlyDeleted := S.recentlyDeleted.filter (fun x => x.id != t.id),
        history := S.history ++
          [{ id := S.nextHistoryId, transactionId := t.id, action := "restore",
             timestamp := nowS, snapshot := t }],
        nextHistoryId := S.nextHistoryId + 1 } := by
  have hadd := addTransaction_state nowS S (txToInput t) hwf
  show ({ (addTransaction nowS S (txToInput t)).1 with
      recentlyDeleted := (addTransaction nowS S (txToInput t)).1.recentlyDeleted.filter
        (fun x => x.id != t.id),
      history := (addTransaction nowS S (txToInput t)).1.history ++
        [{ id := (addTransaction nowS S (txToInput t)).1.nextHistoryId, transactionId := t.id,
           action := "restore", timestamp := nowS, snapshot := t }],
      nextHistoryId := (addTransaction nowS S (txToInput t)).1.nextHistoryId + 1 } : State) = _
  rw [hadd]

/-- Invariant transfer across a claim-shaped asset adjustment. -/
theorem adjust_invariant (base : String → Money) (assets : List Asset)
    (f g : String → Money) (loc : String) (delta : Money)
    (hne : ∀ a ∈ assets, a.name ≠ "")
    (hsum : ∀ a ∈ assets, g a.name = f a.name + (if a.name = loc then delta else 0))
    (hinv : ∀ a ∈ assets, a.amount = base a.name + f a.name) :
    ∀ x ∈ adjustAssets assets loc delta, x.amount = base x.name + g x.name := by
  intro x hx
  rcases List.mem_map.mp hx with ⟨a, ha, rfl⟩
  by_cases h : a.name = loc ∧ loc ≠ ""
  · rw [if_pos h]
    have hg := hsum a ha
    rw [if_pos h.1] at hg
    show a.amount + delta = base a.name + g a.name
    rw [hg, hinv a ha]
    ring
  · rw [if_neg h]
    have hanm := hne a ha
    have hnloc : a.name ≠ loc := by
      intro hcon
      refine h ⟨hcon, ?_⟩
      intro hcon2
      exact hanm (hcon.trans hcon2)
    have hg := hsum a ha
    rw [if_neg hnloc] at hg
    show a.amount = base a.name + g a.name
    rw [hinv a ha, hg]
    ring

theorem names_ne_of_map_eq (l1 l2 : List Asset)
    (h : l1.map Asset.name = l2.map Asset.name) (h2 : ∀ a ∈ l2, a.name ≠ "") :
    ∀ a ∈ l1, a.name ≠ "" := by
  intro a ha
  have : a.name ∈ l2.map Asset.name := h ▸ List.mem_map_of_mem Asset.name ha
  rcases List.mem_map.mp this with ⟨b, hb, hbn⟩
  rw [← hbn]
  exact h2 b hb

end FinanceApp

namespace FinanceApp

/-- `addTransaction` preserves the reconciliation invariant. -/
theorem addTransaction_invariant (base : String → Money) (nowS : String) (S : State)
    (i : TxInput) (hwf : WellFormed S) (hinv : AssetInvariant base S) :
    AssetInvariant base (addTransaction nowS S i).1 := by
  have hst := addTransaction_state nowS S i hwf
  obtain ⟨hnames, hids, hne, htxids, hbound, hbids⟩ := hwf
  rw [hst]
  intro a ha
  refine adjust_invariant base S.assets (signedSum S.transactions)
    (signedSum (createdTransaction nowS S i :: S.transactions))
    (validateTransaction nowS i).location (signedAmount (createdTransaction nowS S i))
    hne ?_ hinv a ha
  intro x _
  rw [signedSum_cons]
  have hl : (createdTransaction nowS S i).location = (validateTransaction nowS i).location := rfl
  by_cases hc : x.name = (validateTransaction nowS i).location
  · rw [if_pos hc, if_pos (hl.trans hc.symm)]
    ring
  · rw [if_neg hc, if_neg (fun hcc => hc ((hl ▸ hcc).symm))]
    ring

/-- `deleteTransaction` preserves the reconciliation invariant. -/
theorem deleteTransaction_invariant (base : String → Money) (nowS : String) (S : State)
    (id : Nat) (hwf : WellFormed S) (hinv : AssetInvariant base S) :
    AssetInvariant base (deleteTransaction nowS S id).1 := by
  rcases hfind : S.transactions.find? (fun x => x.id == id) with _ | t
  · have : deleteTransaction nowS S id = (S, false) := by
      unfold deleteTransaction; rw [hfind]
    rw [this]
    exact hinv
  · have htid : t.id = id := by simpa using List.find?_some hfind
    subst htid
    have hst := deleteTransaction_state nowS S t.id t hwf hfind
    have ht : t ∈ S.transactions := List.mem_of_find?_eq_some hfind
    obtain ⟨hnames, hids, hne, htxids, hbound, hbids⟩ := hwf
    rw [hst]
    intro a ha
    refine adjust_invariant base S.assets (signedSum S.transactions)
      (signedSum (S.transactions.filter (fun x => x.id != t.id)))
      t.location (-(signedAmount t)) hne ?_ hinv a ha
    intro x _
    rw [signedSum_filter_out S.transactions t x.name ht htxids]
    by_cases hc : x.name = t.location
    · rw [if_pos hc, if_pos hc.symm]
      ring
    · rw [if_neg hc, if_neg (fun hcc => hc hcc.symm)]
      ring

/-- `undoDeleteTransaction` preserves the reconciliation invariant. -/
theorem undoDeleteTransaction_invariant (base : String → Money) (nowS : String) (S : State)
    (t : Tx) (hwf : WellFormed S) (hinv : AssetInvariant base S) :
    AssetInvariant base (undoDeleteTransaction nowS S t).1 := by
  intro a ha
  exact addTransaction_invariant base nowS S (txToInput t) hwf hinv a ha

/-- `addTransaction` preserves structural well-formedness. -/
theorem addTransaction_wf (nowS : String) (S : State) (i : TxInput) (hwf : WellFormed S) :
    WellFormed (addTransaction nowS S i).1 := by
  have hst := addTransaction_state nowS S i hwf
  obtain ⟨hnames, hids, hne, htxids, hbound, hbids⟩ := hwf
  rw [hst]
  refine ⟨?_, ?_, ?_, ?_, ?_, ?_⟩
  · show ((adjustAssets S.assets (validateTransaction nowS i).location
      (signedAmount (createdTransaction nowS S i))).map Asset.name).Nodup
    rw [adjustAssets_names]
    exact hnames
  · show ((adjustAssets S.assets (validateTransaction nowS i).location
      (signedAmount (createdTransaction nowS S i))).map Asset.id).Nodup
    rw [adjustAssets_ids]
    exact hids
  · exact names_ne_of_map_eq _ S.assets (adjustAssets_names _ _ _) hne
  · show (((createdTransaction nowS S i :: S.transactions)).map Tx.id).Nodup
    rw [List.map_cons]
    refine List.nodup_cons.mpr ⟨?_, htxids⟩
    intro hmem
    rcases List.mem_map.mp hmem with ⟨s, hs, hsid⟩
    have : s.id < S.nextTxId := hbound s hs
    rw [hsid] at this
    exact absurd this (lt_irrefl _)
  · intro s hs
    rcases List.mem_cons.mp hs with rfl | hs2
    · exact Nat.lt_succ_self _
    · exact Nat.lt_succ_of_lt (hbound s hs2)
  · show ((spentAfterAdd S.budgets (validateTransaction nowS i)).map Budget.id).Nodup
    rw [spentAfterAdd_ids]
    exact hbids

/-- `deleteTransaction` preserves structural well-formedness. -/
theorem deleteTransaction_wf (nowS : String) (S : State) (id : Nat) (hwf : WellFormed S) :
    WellFormed (deleteTransaction nowS S id).1 := by
  rcases hfind : S.transactions.find? (fun x => x.id == id) with _ | t
  · have : deleteTransaction nowS S id = (S, false) := by
      unfold deleteTransaction; rw [hfind]
    rw [this]
    exact hwf
  · have hst := deleteTransaction_state nowS S id t hwf hfind
    obtain ⟨hnames, hids, hne, htxids, hbound, hbids⟩ := hwf
    rw [hst]
    refine ⟨?_, ?_, ?_, ?_, ?_, ?_⟩
    · show ((adjustAssets S.assets t.location (-(signedAmount t))).map Asset.name).Nodup
      rw [adjustAssets_names]
      exact hnames
    · show ((adjustAssets S.assets t.location (-(signedAmount t))).map Asset.id).Nodup
      rw [adjustAssets_ids]
      exact hids
    · exact names_ne_of_map_eq _ S.assets (adjustAssets_names _ _ _) hne
    · show (((S.transactions.filter (fun x => x.id != id))).map Tx.id).Nodup
      exact htxids.sublist (List.Sublist.map Tx.id (List.filter_sublist _))
    · intro s hs
      exact hbound s (List.mem_of_mem_filter hs)
    · show ((spentAfterDelete S.budgets t).map Budget.id).Nodup
      rw [spentAfterDelete_ids]
      exact hbids

/-- `undoDeleteTransaction` preserves structural well-formedness. -/
theorem undoDeleteTransaction_wf (nowS : String) (S : State) (t : Tx) (hwf : WellFormed S) :
    WellFormed (undoDeleteTransaction nowS S t).1 := by
  obtain ⟨h1, h2, h3, h4, h5, h6⟩ := addTransaction_wf nowS S (txToInput t) hwf
  exact ⟨h1, h2, h3, h4, h5, h6⟩

/-- `addTransaction` keeps budgets non-negative when the validated amount
is non-negative. -/
theorem addTransaction_nonneg (nowS : String) (S : State) (i : TxInput)
    (hS : BudgetNonneg S) (hpos : 0 ≤ i.amount.getD 0) :
    BudgetNonneg (addTransaction nowS S i).1 := by
  refine budgetNonneg_applyWrites S _ hS ?_
  intro w hw b hwb
  subst hwb
  rcases List.mem_cons.mp hw with h | h
  · simp at h
  rcases List.mem_append.mp h with h2 | h2
  · by_cases hloc : (validateTransaction nowS i).location = ""
    · rw [if_pos hloc] at h2
      cases h2
    · rw [if_neg hloc] at h2
      rcases hfa : S.assets.find? (fun a => a.name == (validateTransaction nowS i).location)
        with _ | a1 <;> rw [hfa] at h2
      · cases h2
      · rcases List.mem_singleton.mp h2
  · by_cases hb : (validateTransaction nowS i).type = "expense" ∧
        (validateTransaction nowS i).category ≠ ""
    · rw [if_pos hb] at h2
      rcases List.mem_map.mp h2 with ⟨b0, hb0, heq⟩
      have hrow : b = { b0 with spent := b0.spent + (validateTransaction nowS i).amount } := by
        cases heq
        rfl
      rw [hrow]
      have hb0m : b0 ∈ S.budgets := List.mem_of_mem_filter hb0
      have : (0 : Money) ≤ b0.spent := hS b0 hb0m
      show 0 ≤ b0.spent + (validateTransaction nowS i).amount
      have hamt : (validateTransaction nowS i).amount = i.amount.getD 0 := rfl
      rw [hamt]
      exact add_nonneg this hpos
    · rw [if_neg hb] at h2
      cases h2

/-- `deleteTransaction` keeps budgets non-negative. -/
theorem deleteTransaction_nonneg (nowS : String) (S : State) (id : Nat)
    (hS : BudgetNonneg S) :
    BudgetNonneg (deleteTransaction nowS S id).1 := by
  rcases hfind : S.transactions.find? (fun x => x.id == id) with _ | t
  · have : deleteTransaction nowS S id = (S, false) := by
      unfold deleteTransaction; rw [hfind]
    rw [this]
    exact hS
  · have hw : deleteTransaction nowS S id =
        ({ applyWrites S (deleteTransactionWrites nowS S id t) with
            recentlyDeleted := t :: S.recentlyDeleted.take 4 }, true) := by
      unfold deleteTransaction
      rw [hfind]
    rw [hw]
    intro b hb
    refine budgetNonneg_applyWrites S (deleteTransactionWrites nowS S id t) hS ?_ b hb
    intro w hw2 b1 hwb
    subst hwb
    rw [deleteTransactionWrites] at hw2
    rcases List.mem_append.mp hw2 with h2 | h2
    rcases List.mem_append.mp h2 with h3 | h3
    · by_cases hloc : t.location = ""
      · rw [if_pos hloc] at h3
        cases h3
      · rw [if_neg hloc] at h3
        rcases hfa : S.assets.find? (fun a => a.name == t.location) with _ | a1 <;>
          rw [hfa] at h3
        · cases h3
        · rcases List.mem_singleton.mp h3
    · by_cases hbc : t.type = "expense" ∧ t.category ≠ ""
      · rw [if_pos hbc] at h3
        rcases List.mem_map.mp h3 with ⟨b0, _, heq⟩
        have hrow : b1 = { b0 with spent := max 0 (b0.spent - t.amount) } := by
          cases heq
          rfl
        rw [hrow]
        exact le_max_left 0 _
      · rw [if_neg hbc] at h3
        cases h3
    · rcases List.mem_cons.mp h2 with h3 | h3
      · simp at h3
      · rcases List.mem_singleton.mp h3

/-- `undoDeleteTransaction` keeps budgets non-negative when the snapshot
amount is non-negative. -/
theorem undoDeleteTransaction_nonneg (nowS : String) (S : State) (t : Tx)
    (hS : BudgetNonneg S) (hpos : 0 ≤ t.amount) :
    BudgetNonneg (undoDeleteTransaction nowS S t).1 := by
  intro b hb
  exact addTransaction_nonneg nowS S (txToInput t) hS hpos b hb

end FinanceApp

namespace FinanceApp

theorem updateAssetWrites_asset_only (S : State) (o u : Tx) :
    ∀ w ∈ updateAssetWrites S o u, ∃ a, w = Write.updateAssetRow a := by
  intro w hw
  rw [updateAssetWrites] at hw
  split at hw
  · split at hw
    · cases hw
    · split at hw
      · rw [List.mem_singleton.mp hw]
        exact ⟨_, rfl⟩
      · rcases List.mem_cons.mp hw with rfl | hw2
        · exact ⟨_, rfl⟩
        · split at hw2
          · cases hw2
          · rw [List.mem_singleton.mp hw2]
            exact ⟨_, rfl⟩
  · cases hw

theorem updateBudgetWrites_budget_only (S : State) (o u : Tx) :
    ∀ w ∈ updateBudgetWrites S o u, ∃ b, w = Write.updateBudgetRow b := by
  intro w hw
  rw [updateBudgetWrites] at hw
  by_cases h1 : u.type = "expense"
  · rw [if_pos h1] at hw
    by_cases h2 : o.category ≠ u.category
    · rw [if_pos h2] at hw
      rcases List.mem_append.mp hw with h3 | h3 <;>
        · rcases List.mem_map.mp h3 with ⟨b, _, rfl⟩
          exact ⟨_, rfl⟩
    · rw [if_neg h2] at hw
      by_cases h3 : o.amount ≠ u.amount
      · rw [if_pos h3] at hw
        rcases List.mem_map.mp hw with ⟨b, _, rfl⟩
        exact ⟨_, rfl⟩
      · rw [if_neg h3] at hw
        cases hw
  · rw [if_neg h1] at hw
    cases hw

theorem updateBudgetWrites_nonneg (S : State) (o u : Tx)
    (hS : BudgetNonneg S) (hpos : 0 ≤ u.amount) :
    ∀ w ∈ updateBudgetWrites S o u, ∀ b, w = Write.updateBudgetRow b → 0 ≤ b.spent := by
  intro w hw b hwb
  subst hwb
  rw [updateBudgetWrites] at hw
  by_cases h1 : u.type = "expense"
  · rw [if_pos h1] at hw
    by_cases h2 : o.category ≠ u.category
    · rw [if_pos h2] at hw
      rcases List.mem_append.mp hw with h3 | h3
      · rcases List.mem_map.mp h3 with ⟨b0, _, heq⟩
        have hrow : b = { b0 with spent := max 0 (b0.spent - o.amount) } := by
          cases heq
          rfl
        rw [hrow]
        exact le_max_left 0 _
      · rcases List.mem_map.mp h3 with ⟨b0, hb0, heq⟩
        have hrow : b = { b0 with spent := b0.spent + u.amount } := by
          cases heq
          rfl
        rw [hrow]
        exact add_nonneg (hS b0 (List.mem_of_mem_filter hb0)) hpos
    · rw [if_neg h2] at hw
      by_cases h3 : o.amount ≠ u.amount
      · rw [if_pos h3] at hw
        rcases List.mem_map.mp hw with ⟨b0, _, heq⟩
        have hrow : b = { b0 with spent := max 0 (b0.spent + (u.amount - o.amount)) } := by
          cases heq
          rfl
        rw [hrow]
        exact le_max_left 0 _
      · rw [if_neg h3] at hw
        cases hw
  · rw [if_neg h1] at hw
    cases hw

theorem assetReversed_eq (a1 : Asset) (o : Tx)
    (hot : o.type = "income" ∨ o.type = "expense") :
    assetReversed a1 o = a1.amount + -(signedAmount o) := by
  rcases hot with h | h <;>
    simp [assetReversed, signedAmount, h, String.reduceEq] <;>
    ring

theorem assetApplied_eq (a2 : Asset) (u : Tx)
    (hut : u.type = "income" ∨ u.type = "expense") :
    assetApplied a2 u = a2.amount + signedAmount u := by
  rcases hut with h | h <;>
    simp [assetApplied, signedAmount, h, String.reduceEq] <;>
    ring

theorem assetNewAmount_eq (a1 : Asset) (o u : Tx)
    (hot : o.type = "income" ∨ o.type = "expense")
    (hut : u.type = "income" ∨ u.type = "expense") :
    assetNewAmount a1 o u = a1.amount + (-(signedAmount o) + signedAmount u) := by
  rcases hot with h1 | h1 <;> rcases hut with h2 | h2 <;>
    simp [assetNewAmount, assetReversed, signedAmount, h1, h2, String.reduceEq] <;>
    ring

/-- The transaction table after `updateTransaction`: the row with the
given id replaced, nothing else. -/
theorem updateTransaction_transactions (S : State) (u : Tx) :
    (updateTransaction S u).transactions =
      S.transactions.map (fun t => if t.id == u.id then u else t) := by
  rw [updateTransaction, updateTransactionWrites, applyWrites_cons]
  rcases ho : S.transactions.find? (fun t => t.id == u.id) with _ | o
  · rw [ho]
    rfl
  · rw [ho, applyWrites_append]
    rw [(budget_writes_frame _ _ (updateBudgetWrites_budget_only S o u)).2.1,
      (asset_writes_frame _ _ (updateAssetWrites_asset_only S o u)).1]
    rfl

theorem updateTransaction_nextTxId (S : State) (u : Tx) :
    (updateTransaction S u).nextTxId = S.nextTxId := by
  rw [updateTransaction, updateTransactionWrites, applyWrites_cons]
  rcases ho : S.transactions.find? (fun t => t.id == u.id) with _ | o
  · rw [ho]
    rfl
  · rw [ho, applyWrites_append]
    rw [(budget_writes_frame _ _ (updateBudgetWrites_budget_only S o u)).2.2.1,
      (asset_writes_frame _ _ (updateAssetWrites_asset_only S o u)).2.2.1]
    rfl

/-- `updateTransaction` keeps budgets non-negative when the updated amount
is non-negative. -/
theorem updateTransaction_nonneg (S : State) (u : Tx)
    (hS : BudgetNonneg S) (hpos : 0 ≤ u.amount) :
    BudgetNonneg (updateTransaction S u) := by
  refine budgetNonneg_applyWrites S _ hS ?_
  intro w hw b hwb
  subst hwb
  rw [updateTransactionWrites] at hw
  rcases List.mem_cons.mp hw with h | h
  · simp at h
  · rcases ho : S.transactions.find? (fun t => t.id == u.id) with _ | o <;> rw [ho] at h
    · cases h
    · rcases List.mem_append.mp h with h2 | h2
      · obtain ⟨a, ha⟩ := updateAssetWrites_asset_only S o u _ h2
        simp at ha
      · exact updateBudgetWrites_nonneg S o u hS hpos _ h2 b rfl

/-- The asset name column is unchanged by `updateTransaction`. -/
theorem updateTransaction_asset_names (S : State) (u : Tx)
    (hids : (S.assets.map Asset.id).Nodup) :
    (updateTransaction S u).assets.map Asset.name = S.assets.map Asset.name := by
  rw [updateTransaction, updateTransactionWrites, applyWrites_cons]
  rcases ho : S.transactions.find? (fun t => t.id == u.id) with _ | o
  · rw [ho]
    rfl
  · rw [ho, applyWrites_append]
    rw [(budget_writes_frame _ _ (updateBudgetWrites_budget_only S o u)).1]
    rw [updateAssetWrites]
    split
    · split
      · rfl
      · next a1 hfa =>
        have ha1 : a1 ∈ S.assets := List.mem_of_find?_eq_some hfa
        split
        · exact (asset_write_names_ids S.assets a1
            { a1 with amount := assetNewAmount a1 o u } hids ha1 rfl rfl).1
        · next hl =>
          rcases hfb : S.assets.find? (fun a => a.name == u.location) with _ | a2
          · rw [hfb]
            exact (asset_write_names_ids S.assets a1
              { a1 with amount := assetReversed a1 o } hids ha1 rfl rfl).1
          · rw [hfb]
            have ha2 : a2 ∈ S.assets := List.mem_of_find?_eq_some hfb
            have h1n : a1.name = o.location := by simpa using List.find?_some hfa
            have h2n : a2.name = u.location := by simpa using List.find?_some hfb
            have hdiff : a1 ≠ a2 := by
              intro hcon
              exact hl ((h1n.symm.trans (congrArg Asset.name hcon)).trans h2n)
            have hiddiff : a2.id ≠ a1.id := by
              intro hcon
              exact hdiff (List.inj_on_of_nodup_map hids ha1 ha2 hcon.symm)
            have hp1 := asset_write_names_ids S.assets a1
              { a1 with amount := assetReversed a1 o } hids ha1 rfl rfl
            have hids1 : ((S.assets.map (fun y =>
                if y.id == ({ a1 with amount := assetReversed a1 o } : Asset).id
                then { a1 with amount := assetReversed a1 o } else y)).map Asset.id).Nodup := by
              rw [hp1.2]
              exact hids
            have ha2in : a2 ∈ S.assets.map (fun y =>
                if y.id == ({ a1 with amount := assetReversed a1 o } : Asset).id
                then { a1 with amount := assetReversed a1 o } else y) := by
              refine List.mem_map.mpr ⟨a2, ha2, ?_⟩
              simp [hiddiff]
            have hp2 := asset_write_names_ids _ a2
              { a2 with amount := assetApplied a2 u } hids1 ha2in rfl rfl
            exact hp2.1.trans hp1.1
    · rfl

/-- `updateTransaction` preserves structural well-formedness. -/
theorem updateTransaction_wf (S : State) (u : Tx) (hwf : WellFormed S) :
    WellFormed (updateTransaction S u) := by
  obtain ⟨hnames, hids, hne, htxids, hbound, hbids⟩ := hwf
  have htr := updateTransaction_transactions S u
  refine ⟨?_, ?_, ?_, ?_, ?_, ?_⟩
  · rw [updateTransaction_asset_names S u hids]
    exact hnames
  · rw [updateTransaction, applyWrites_asset_ids]
    exact hids
  · exact names_ne_of_map_eq _ S.assets (updateTransaction_asset_names S u hids) hne
  · rw [htr, txRow_map_ids]
    exact htxids
  · rw [updateTransaction_nextTxId]
    refine bound_of_ids_eq _ S.transactions _ ?_ hbound
    rw [htr, txRow_map_ids]
  · rw [updateTransaction, applyWrites_budget_ids]
    exact hbids

end FinanceApp

namespace FinanceApp

/-- `updateTransaction` preserves the reconciliation invariant under its
safety side conditions (recognised types, and no move from an
unresolvable location onto a resolvable one). -/
theorem updateTransaction_invariant (base : String → Money) (S : State) (u : Tx)
    (hwf : WellFormed S) (hsafe : UpdateSafe S u) (hinv : AssetInvariant base S) :
    AssetInvariant base (updateTransaction S u) := by
  obtain ⟨hnames, hids, hne, htxids, hbound, hbids⟩ := hwf
  have htr := updateTransaction_transactions S u
  rcases ho : S.transactions.find? (fun t => t.id == u.id) with _ | o
  · have hmapid : S.transactions.map (fun t => if t.id == u.id then u else t) =
        S.transactions :=
      map_replace_noop S.transactions u (by
        intro x hx hcon
        have := List.find?_eq_none.mp ho x hx
        simp [hcon] at this)
    have hassets : (updateTransaction S u).assets = S.assets := by
      rw [updateTransaction, updateTransactionWrites, applyWrites_cons, ho]
      rfl
    intro a ha
    rw [htr, hmapid, hassets] at *
    exact hinv a ha
  · obtain ⟨hot, hut, hres⟩ := hsafe o ho
    have hsum : ∀ name,
        signedSum (S.transactions.map (fun t => if t.id == u.id then u else t)) name
        = signedSum S.transactions name
          - (if o.location = name then signedAmount o else 0)
          + (if u.location = name then signedAmount u else 0) :=
      fun name => signedSum_replace S.transactions o u name ho htxids
    have hassets0 : (updateTransaction S u).assets =
        (applyWrites (applyWrite S (Write.updateTxRow u)) (updateAssetWrites S o u)).assets := by
      rw [updateTransaction, updateTransactionWrites, applyWrites_cons, ho, applyWrites_append,
        (budget_writes_frame _ _ (updateBudgetWrites_budget_only S o u)).1]
    suffices h : ∀ x ∈ (applyWrites (applyWrite S (Write.updateTxRow u))
        (updateAssetWrites S o u)).assets,
        x.amount = base x.name +
          signedSum (S.transactions.map (fun t => if t.id == u.id then u else t)) x.name by
      intro a ha
      rw [hassets0] at ha
      rw [htr]
      exact h a ha
    rw [updateAssetWrites]
    by_cases hg : o.location ≠ u.location ∨ o.amount ≠ u.amount ∨ o.type ≠ u.type
    · rw [if_pos hg]
      rcases hfa : S.assets.find? (fun a => a.name == o.location) with _ | a1
      · simp only [hfa]
        have hnro : ∀ a ∈ S.assets, a.name ≠ o.location := by
          intro a ha hcon
          have := List.find?_eq_none.mp hfa a ha
          simp [hcon] at this
        have hnru : ∀ a ∈ S.assets, a.name ≠ u.location := by
          rcases hres with ⟨a0, ha0, ha0n⟩ | hr
          · exact absurd ha0n (hnro a0 ha0)
          · exact hr
        intro x hx
        have hx2 : x ∈ S.assets := hx
        rw [hsum x.name, if_neg (fun hc => hnro x hx2 hc.symm),
          if_neg (fun hc => hnru x hx2 hc.symm), hinv x hx2]
        ring
      · simp only [hfa]
        have ha1 : a1 ∈ S.assets := List.mem_of_find?_eq_some hfa
        have h1n : a1.name = o.location := by simpa using List.find?_some hfa
        have hlocne : o.location ≠ "" := h1n ▸ hne a1 ha1
        by_cases hl : o.location = u.location
        · rw [if_pos hl]
          have hrw : ({ a1 with amount := assetNewAmount a1 o u } : Asset)
              = { a1 with amount := a1.amount + (-(signedAmount o) + signedAmount u) } := by
            rw [assetNewAmount_eq a1 o u hot hut]
          have heq : (applyWrites (applyWrite S (Write.updateTxRow u))
              [Write.updateAssetRow { a1 with amount := assetNewAmount a1 o u }]).assets
              = adjustAssets S.assets o.location (-(signedAmount o) + signedAmount u) := by
            show S.assets.map (fun y =>
                if y.id == ({ a1 with amount := assetNewAmount a1 o u } : Asset).id
                then { a1 with amount := assetNewAmount a1 o u } else y) = _
            rw [hrw]
            exact replaceById_eq_adjust S.assets a1 o.location _ hnames hids hfa hlocne
          intro x hx
          rw [heq] at hx
          refine adjust_invariant base S.assets (signedSum S.transactions) _ o.location
            (-(signedAmount o) + signedAmount u) hne ?_ hinv x hx
          intro y _
          rw [hsum y.name]
          by_cases hc : y.name = o.location
          · rw [if_pos hc, if_pos hc.symm, if_pos (hl.symm.trans hc.symm)]
            ring
          · rw [if_neg hc, if_neg (fun hcc => hc hcc.symm),
              if_neg (fun hcc => hc (hcc.symm.trans hl.symm))]
            ring
        · rw [if_neg hl]
          rcases hfb : S.assets.find? (fun a => a.name == u.location) with _ | a2
          · simp only [hfb]
            have hnru : ∀ a ∈ S.assets, a.name ≠ u.location := by
              intro a ha hcon
              have := List.find?_eq_none.mp hfb a ha
              simp [hcon] at this
            have hrw : ({ a1 with amount := assetReversed a1 o } : Asset)
                = { a1 with amount := a1.amount + (-(signedAmount o)) } := by
              rw [assetReversed_eq a1 o hot]
            have heq : (applyWrites (applyWrite S (Write.updateTxRow u))
                (Write.updateAssetRow { a1 with amount := assetReversed a1 o } :: [])).assets
                = adjustAssets S.assets o.location (-(signedAmount o)) := by
              show S.assets.map (fun y =>
                  if y.id == ({ a1 with amount := assetReversed a1 o } : Asset).id
                  then { a1 with amount := assetReversed a1 o } else y) = _
              rw [hrw]
              exact replaceById_eq_adjust S.assets a1 o.location _ hnames hids hfa hlocne
            intro x hx
            rw [heq] at hx
            refine adjust_invariant base S.assets (signedSum S.transactions) _ o.location
              (-(signedAmount o)) hne ?_ hinv x hx
            intro y hy
            rw [hsum y.name,
              if_neg (show ¬(u.location = y.name) from fun hc => hnru y hy hc.symm)]
            by_cases hc : y.name = o.location
            · rw [if_pos hc, if_pos hc.symm]
              ring
            · rw [if_neg hc, if_neg (fun hcc => hc hcc.symm)]
              ring
          · simp only [hfb]
            have ha2 : a2 ∈ S.assets := List.mem_of_find?_eq_some hfb
            have h2n : a2.name = u.location := by simpa using List.find?_some hfb
            have hulocne : u.location ≠ "" := h2n ▸ hne a2 ha2
            have hnames1 : ((adjustAssets S.assets o.location (-(signedAmount o))).map
                Asset.name).Nodup := by
              rw [adjustAssets_names]
              exact hnames
            have hids1 : ((adjustAssets S.assets o.location (-(signedAmount o))).map
                Asset.id).Nodup := by
              rw [adjustAssets_ids]
              exact hids
            have hne1 : ∀ a ∈ adjustAssets S.assets o.location (-(signedAmount o)), a.name ≠ "" :=
              names_ne_of_map_eq _ S.assets (adjustAssets_names _ _ _) hne
            have hfind1 : (adjustAssets S.assets o.location (-(signedAmount o))).find?
                (fun a => a.name == u.location) = some a2 := by
              rw [adjustAssets, List.find?_map]
              have hcomp : ((fun a : Asset => a.name == u.location) ∘
                  (fun a : Asset => if a.name = o.location ∧ o.location ≠ "" then
                    { a with amount := a.amount + (-(signedAmount o)) } else a))
                  = (fun a : Asset => a.name == u.location) := by
                funext a
                by_cases hc : a.name = o.location ∧ o.location ≠ "" <;> simp [hc]
              rw [hcomp, hfb]
              have hno2 : ¬(a2.name = o.location ∧ o.location ≠ "") := by
                intro hcon
                exact hl (hcon.1.symm.trans h2n)
              simp [hno2]
            have hrw1 : ({ a1 with amount := assetReversed a1 o } : Asset)
                = { a1 with amount := a1.amount + (-(signedAmount o)) } := by
              rw [assetReversed_eq a1 o hot]
            have hrw2 : ({ a2 with amount := assetApplied a2 u } : Asset)
                = { a2 with amount := a2.amount + signedAmount u } := by
              rw [assetApplied_eq a2 u hut]
            have e1 : S.assets.map (fun y =>
                if y.id == ({ a1 with amount := assetReversed a1 o } : Asset).id
                then { a1 with amount := assetReversed a1 o } else y)
                = adjustAssets S.assets o.location (-(signedAmount o)) := by
              rw [hrw1]
              exact replaceById_eq_adjust S.assets a1 o.location _ hnames hids hfa hlocne
            have heq : (applyWrites (applyWrite S (Write.updateTxRow u))
                (Write.updateAssetRow { a1 with amount := assetReversed a1 o } ::
                  [Write.updateAssetRow { a2 with amount := assetApplied a2 u }])).assets
                = adjustAssets (adjustAssets S.assets o.location (-(signedAmount o)))
                    u.location (signedAmount u) := by
              show (S.assets.map (fun y =>
                  if y.id == ({ a1 with amount := assetReversed a1 o } : Asset).id
                  then { a1 with amount := assetReversed a1 o } else y)).map (fun y =>
                  if y.id == ({ a2 with amount := assetApplied a2 u } : Asset).id
                  then { a2 with amount := assetApplied a2 u } else y) = _
              rw [e1, hrw2]
              exact replaceById_eq_adjust _ a2 u.location _ hnames1 hids1 hfind1 hulocne
            intro x hx
            rw [heq] at hx
            have hmid := adjust_invariant base S.assets (signedSum S.transactions)
              (fun name => signedSum S.transactions name +
                (if name = o.location then -(signedAmount o) else 0))
              o.location (-(signedAmount o)) hne (fun a _ => rfl) hinv
            refine adjust_invariant base (adjustAssets S.assets o.location (-(signedAmount o)))
              (fun name => signedSum S.transactions name +
                (if name = o.location then -(signedAmount o) else 0))
              _ u.location (signedAmount u) hne1 ?_ hmid x hx
            intro y _
            beta_reduce
            rw [hsum y.name]
            by_cases hc1 : y.name = o.location <;> by_cases hc2 : y.name = u.location
            · exact absurd (hc1.symm.trans hc2) hl
            · rw [if_pos hc1, if_pos hc1.symm, if_neg (fun hcc => hc2 hcc.symm), if_neg hc2]
              ring
            · rw [if_neg hc1, if_neg (fun hcc => hc1 hcc.symm), if_pos hc2, if_pos hc2.symm]
              ring
            · rw [if_neg hc1, if_neg (fun hcc => hc1 hcc.symm), if_neg hc2,
                if_neg (fun hcc => hc2 hcc.symm)]
              ring
    · rw [if_neg hg]
      push_neg at hg
      obtain ⟨hl, ha, ht⟩ := hg
      have hsa : signedAmount o = signedAmount u := by
        rw [signedAmount, signedAmount, ht, ha]
      intro x hx
      have hx2 : x ∈ S.assets := hx
      rw [hsum x.name, hsa, hl, hinv x hx2]
      ring

end FinanceApp

namespace FinanceApp

/-- One engine operation preserves structural well-formedness. -/
theorem applyOp_wf (nowS : String) (S : State) (op : Op) (hwf : WellFormed S) :
    WellFormed (applyOp nowS S op) := by
  cases op with
  | create i => exact addTransaction_wf nowS S i hwf
  | update u => exact updateTransaction_wf S u hwf
  | delete id => exact deleteTransaction_wf nowS S id hwf
  | restore t => exact undoDeleteTransaction_wf nowS S t hwf

/-- One engine operation preserves the reconciliation invariant under its
safety side condition. -/
theorem applyOp_invariant (base : String → Money) (nowS : String) (S : State) (op : Op)
    (hwf : WellFormed S) (hsafe : OpSafe S op) (hinv : AssetInvariant base S) :
    AssetInvariant base (applyOp nowS S op) := by
  cases op with
  | create i => exact addTransaction_invariant base nowS S i hwf hinv
  | update u => exact updateTransaction_invariant base S u hwf hsafe hinv
  | delete id => exact deleteTransaction_invariant base nowS S id hwf hinv
  | restore t => exact undoDeleteTransaction_invariant base nowS S t hwf hinv

/-- One engine operation keeps budgets non-negative when its transaction
amount is positive. -/
theorem applyOp_nonneg (nowS : String) (S : State) (op : Op)
    (hS : BudgetNonneg S) (hpos : OpAmountPos op) :
    BudgetNonneg (applyOp nowS S op) := by
  cases op with
  | create i => exact addTransaction_nonneg nowS S i hS (le_of_lt hpos)
  | update u => exact updateTransaction_nonneg S u hS (le_of_lt hpos)
  | delete id => exact deleteTransaction_nonneg nowS S id hS
  | restore t => exact undoDeleteTransaction_nonneg nowS S t hS (le_of_lt hpos)

/-- Any operation sequence preserves structural well-formedness. -/
theorem applyOps_wf (S : State) (ops : List (String × Op)) (hwf : WellFormed S) :
    WellFormed (applyOps S ops) := by
  induction ops generalizing S with
  | nil => exact hwf
  | cons p rest ih => exact ih (applyOp p.1 S p.2) (applyOp_wf p.1 S p.2 hwf)

/-- Any safe operation sequence preserves the reconciliation invariant. -/
theorem applyOps_invariant (base : String → Money) (S : State) (ops : List (String × Op))
    (hwf : WellFormed S) (hsafe : OpsSafe S ops) (hinv : AssetInvariant base S) :
    AssetInvariant base (applyOps S ops) := by
  induction ops generalizing S with
  | nil => exact hinv
  | cons p rest ih =>
      exact ih (applyOp p.1 S p.2) (applyOp_wf p.1 S p.2 hwf) hsafe.2
        (applyOp_invariant base p.1 S p.2 hwf hsafe.1 hinv)

/-- Any operation sequence with positive amounts keeps budgets
non-negative. -/
theorem applyOps_nonneg (S : State) (ops : List (String × Op))
    (hS : BudgetNonneg S) (hpos : ∀ p ∈ ops, OpAmountPos p.2) :
    BudgetNonneg (applyOps S ops) := by
  induction ops generalizing S with
  | nil => exact hS
  | cons p rest ih =>
      exact ih (applyOp p.1 S p.2)
        (applyOp_nonneg p.1 S p.2 hS (hpos p (List.mem_cons_self _ _)))
        (fun q hq => hpos q (List.mem_cons_of_mem _ hq))

end FinanceApp

namespace FinanceApp

/-- Asset-row and budget-row writes never touch the transaction table. -/
theorem applyWrites_transactions_rowOnly (X : State) (ws : List Write)
    (h : ∀ w ∈ ws, (∃ a, w = Write.updateAssetRow a) ∨ (∃ b, w = Write.updateBudgetRow b)) :
    (applyWrites X ws).transactions = X.transactions := by
  induction ws generalizing X with
  | nil => rfl
  | cons w ws ih =>
      rw [applyWrites_cons]
      rcases h w (List.mem_cons_self _ _) with ⟨a, rfl⟩ | ⟨b, rfl⟩ <;>
        exact ih (applyWrite X _) (fun w1 hw1 => h w1 (List.mem_cons_of_mem _ hw1))

/-- The transaction table after `addTransaction`, with no structural
hypothesis: the validated row is prepended under the fresh id, whatever
the input was. -/
theorem addTransaction_transactions (nowS : String) (S : State) (i : TxInput) :
    (addTransaction nowS S i).1.transactions = createdTransaction nowS S i :: S.transactions := by
  set v := validateTransaction nowS i with hv
  set nt := createdTransaction nowS S i with hnt
  have hw : addTransactionWrites nowS S i =
      Write.insertTx nt ::
      ((if v.location = "" then []
        else
          match S.assets.find? (fun a => a.name == v.location) with
          | some a =>
              [Write.updateAssetRow { a with amount :=
                  if v.type = "income" then a.amount + v.amount
                  else if v.type = "expense" then a.amount - v.amount
                  else a.amount }]
          | none => []) ++
       (if v.type = "expense" ∧ v.category ≠ "" then
          (S.budgets.filter (fun b => b.category == v.category)).map
            (fun b => Write.updateBudgetRow { b with spent := b.spent + v.amount })
        else [])) := rfl
  have hmem : ∀ w ∈ ((if v.location = "" then []
        else
          match S.assets.find? (fun a => a.name == v.location) with
          | some a =>
              [Write.updateAssetRow { a with amount :=
                  if v.type = "income" then a.amount + v.amount
                  else if v.type = "expense" then a.amount - v.amount
                  else a.amount }]
          | none => []) ++
       (if v.type = "expense" ∧ v.category ≠ "" then
          (S.budgets.filter (fun b => b.category == v.category)).map
            (fun b => Write.updateBudgetRow { b with spent := b.spent + v.amount })
        else [])),
      (∃ a, w = Write.updateAssetRow a) ∨ (∃ b, w = Write.updateBudgetRow b) := by
    intro w hmw
    rcases List.mem_append.mp hmw with h2 | h2
    · left
      by_cases hloc : v.location = ""
      · rw [if_pos hloc] at h2
        cases h2
      · rw [if_neg hloc] at h2
        rcases hfa : S.assets.find? (fun a => a.name == v.location) with _ | a1 <;>
          rw [hfa] at h2
        · cases h2
        · exact ⟨_, List.mem_singleton.mp h2⟩
    · right
      by_cases hb : v.type = "expense" ∧ v.category ≠ ""
      · rw [if_pos hb] at h2
        rcases List.mem_map.mp h2 with ⟨b, _, rfl⟩
        exact ⟨_, rfl⟩
      · rw [if_neg hb] at h2
        cases h2
  show (applyWrites S (addTransactionWrites nowS S i)).transactions = _
  rw [hw, applyWrites_cons, applyWrites_transactions_rowOnly _ _ hmem]
  rfl

/-- Undoing an adjustment of the same location and opposite delta restores
the asset table. -/
theorem adjustAssets_cancel (assets : List Asset) (loc : String) (d : Money) :
    adjustAssets (adjustAssets assets loc (-d)) loc d = assets := by
  rw [adjustAssets, adjustAssets, List.map_map]
  have hpt : ∀ a ∈ assets,
      ((fun a => if a.name = loc ∧ loc ≠ "" then { a with amount := a.amount + d } else a) ∘
       (fun a => if a.name = loc ∧ loc ≠ "" then { a with amount := a.amount + -d } else a)) a
        = id a := by
    intro a _
    by_cases hc : a.name = loc ∧ loc ≠ ""
    · simp only [Function.comp_apply, if_pos hc, id]
      rw [show a.amount + -d + d = a.amount by ring]
    · simp only [Function.comp_apply, if_neg hc, id, if_neg hc]
  rw [List.map_congr_left hpt, List.map_id]

/-- Re-adding an expense right after floor-at-zero reversing it restores
the budget table, provided every matching budget's spent covered the
amount at reversal time. -/
theorem spent_delete_add_cancel (m : List Budget) (t : Tx) (v : TxData)
    (hvt : v.type = t.type) (hvc : v.category = t.category) (hva : v.amount = t.amount)
    (hspent : ∀ b ∈ m, b.category = t.category → t.amount ≤ b.spent) :
    spentAfterAdd (spentAfterDelete m t) v = m := by
  rw [spentAfterDelete, spentAfterAdd, hvt, hvc, hva]
  by_cases hb : t.type = "expense" ∧ t.category ≠ ""
  · rw [if_pos hb, if_pos hb, List.map_map]
    have hpt : ∀ b ∈ m,
        ((fun b => if b.category = t.category then { b with spent := b.spent + t.amount } else b) ∘
         (fun b => if b.category = t.category then
            { b with spent := max 0 (b.spent - t.amount) } else b)) b = id b := by
      intro b hbm
      by_cases hc : b.category = t.category
      · simp only [Function.comp_apply, if_pos hc, id]
        have hmax : max 0 (b.spent - t.amount) = b.spent - t.amount :=
          max_eq_right (by linarith [hspent b hbm hc])
        rw [hmax, show b.spent - t.amount + t.amount = b.spent by ring]
      · simp only [Function.comp_apply, if_neg hc, id, if_neg hc]
    rw [List.map_congr_left hpt, List.map_id]
  · rw [if_neg hb, if_neg hb]

end FinanceApp

namespace FinanceApp

/-- C1 (amended): for every asset, after any sequence of Create, Update,
Delete and Restore operations starting from a well-formed state where the
invariant holds, the asset's amount equals its opening balance plus the
signed sum of the active transactions located at its name — provided
every update in the sequence satisfies the safety side condition
`OpSafe` (recognised types, and no move from an unresolvable location
onto a resolvable one); the unamended claim, quantified over all
sequences, is refuted by `C1_asset_invariant_counterexample`. -/
theorem C1_asset_invariant_amended (base : String → Money) (S : State)
    (ops : List (String × Op)) (hwf : WellFormed S) (hsafe : OpsSafe S ops)
    (hinv : AssetInvariant base S) :
    AssetInvariant base (applyOps S ops) :=
  applyOps_invariant base S ops hwf hsafe hinv

/-- A sequence of a Create and a Delete, run from Scenario A, keeps the
reconciliation invariant (witnessing `C1_asset_invariant_amended`). -/
theorem C1_asset_invariant_witness :
    AssetInvariant base0 (applyOps sA [("T1", Op.create iA), ("T2", Op.delete 1)]) :=
  C1_asset_invariant_amended base0 sA [("T1", Op.create iA), ("T2", Op.delete 1)]
    (by decide)
    ⟨trivial, trivial, trivial⟩
    (by norm_num [AssetInvariant, sA, base0, signedSum, String.reduceEq])

/-- One update refutes C1 as stated: from a well-formed state satisfying
the invariant, moving a transaction whose location matches no asset onto
an existing asset skips the entire asset adjustment (the source returns
early when the original location does not resolve), so the moved
expense is never debited and the invariant breaks. -/
theorem C1_asset_invariant_counterexample :
    WellFormed exS0 ∧ AssetInvariant base0 exS0 ∧
    ¬ AssetInvariant base0 (applyOps exS0 [("T", Op.update u0)]) := by
  refine ⟨by decide, ?_, ?_⟩
  · norm_num [AssetInvariant, base0, exS0, signedSum, signedAmount, List.filter_cons,
      String.reduceEq]
    decide
  · show ¬ AssetInvariant base0 (applyOp "T" exS0 (Op.update u0))
    norm_num [AssetInvariant, base0, exS0, signedSum, signedAmount, applyOp, updateTransaction,
      updateTransactionWrites, updateAssetWrites, updateBudgetWrites, applyWrites, applyWrite, u0,
      List.filter_cons, List.find?_cons, List.foldl, String.reduceEq]
    decide

/-- C2: every budget's spent stays non-negative across any sequence of
engine operations with positive transaction amounts, starting from
non-negative accumulators: every decrement of spent in the source is
floored at zero and every increment adds a positive amount. -/
theorem C2_budget_nonneg (S : State) (ops : List (String × Op))
    (hS : BudgetNonneg S) (hpos : ∀ p ∈ ops, OpAmountPos p.2) :
    BudgetNonneg (applyOps S ops) :=
  applyOps_nonneg S ops hS hpos

/-- A Create, an Update and a Delete, run from Scenario A, keep the
budget accumulator non-negative (witnessing `C2_budget_nonneg`). -/
theorem C2_budget_nonneg_witness :
    BudgetNonneg (applyOps sA
      [("T1", Op.create iA), ("T2", Op.update uB), ("T3", Op.delete 1)]) :=
  C2_budget_nonneg sA [("T1", Op.create iA), ("T2", Op.update uB), ("T3", Op.delete 1)]
    (by norm_num [BudgetNonneg, sA])
    (by
      intro p hp
      rcases List.mem_cons.mp hp with rfl | hp
      · norm_num [OpAmountPos, iA]
      rcases List.mem_cons.mp hp with rfl | hp
      · norm_num [OpAmountPos, uB]
      rcases List.mem_cons.mp hp with rfl | hp
      · trivial
      · cases hp)

/-- C3 (code bug): `addTransaction` always resolves to `undefined`
rather than the created transaction.  The source builds the new row and
ends the `withTransactionAsync` callback with `return newTransaction`,
but `withTransactionAsync` discards its callback's value and the
enclosing function never returns on the success path — so the row is
inserted into the store, yet the caller receives no created object. -/
theorem C3_addTransaction_returns_undefined :
    ∀ (nowS : String) (S : State) (i : TxInput),
      (addTransaction nowS S i).2 = none ∧
      createdTransaction nowS S i ∈ (addTransaction nowS S i).1.transactions :=
  fun nowS S i =>
    ⟨rfl, by rw [addTransaction_transactions]; exact List.mem_cons_self _ _⟩

/-- C4 (amended): the writes of Create and Delete form one atomic
`withTransactionAsync` group, so dying before any group leaves the store
exactly in its pre-operation state; Update, however, issues each
statement as its own bare `runAsync` with no transaction around them,
and a failure between statements leaves a partial subset persisted. -/
theorem C4_atomicity_amended :
    (∀ (nowS : String) (S : State) (i : TxInput) (j : Nat),
        j < (addTransactionPlan nowS S i).length →
        execPlanAborted S (addTransactionPlan nowS S i) j = S) ∧
    (∀ (nowS : String) (S : State) (id : Nat) (j : Nat),
        j < (deleteTransactionPlan nowS S id).length →
        execPlanAborted S (deleteTransactionPlan nowS S id) j = S) ∧
    ¬ (∀ (S : State) (u : Tx) (j : Nat),
        j < (updateTransactionPlan S u).length →
        execPlanAborted S (updateTransactionPlan S u) j = S) := by
  refine ⟨?_, ?_, ?_⟩
  · intro nowS S i j hj
    have hj0 : j = 0 := Nat.lt_one_iff.mp (by simpa [addTransactionPlan] using hj)
    subst hj0
    rfl
  · intro nowS S id j hj
    rw [deleteTransactionPlan] at hj
    rcases hfind : S.transactions.find? (fun t => t.id == id) with _ | t
    · rw [hfind] at hj
      simp at hj
    · rw [hfind] at hj
      have hj0 : j = 0 := Nat.lt_one_iff.mp (by simpa using hj)
      subst hj0
      rfl
  · intro hcon
    have h1 : 1 < (updateTransactionPlan s6 uB).length := by
      norm_num [updateTransactionPlan, updateTransactionWrites, updateAssetWrites,
        updateBudgetWrites, s6, uB, List.find?_cons, List.filter_cons, String.reduceEq]
    have h := congrArg State.transactions (hcon s6 uB 1 h1)
    norm_num [execPlanAborted, execPlan, updateTransactionPlan, updateTransactionWrites,
      updateAssetWrites, updateBudgetWrites, applyWrites, applyWrite, s6, uB,
      List.find?_cons, List.filter_cons, List.take, String.reduceEq] at h

/-- Aborting a Create before its single atomic group leaves Scenario A's
store untouched (witnessing `C4_atomicity_amended`). -/
theorem C4_atomicity_witness :
    execPlanAborted sA (addTransactionPlan "T" sA iA) 0 = sA :=
  C4_atomicity_amended.1 "T" sA iA 0 (by norm_num [addTransactionPlan])

/-- Aborting an Update between its first and second statement persists
the new transaction row without the matching asset write: the store is
left in a state that is neither the pre- nor the post-operation one. -/
theorem C4_atomicity_counterexample :
    1 < (updateTransactionPlan s6 uB).length ∧
    execPlanAborted s6 (updateTransactionPlan s6 uB) 1 ≠ s6 := by
  constructor
  · norm_num [updateTransactionPlan, updateTransactionWrites, updateAssetWrites,
      updateBudgetWrites, s6, uB, List.find?_cons, List.filter_cons, String.reduceEq]
  · intro hcon
    have h := congrArg State.transactions hcon
    norm_num [execPlanAborted, execPlan, updateTransactionPlan, updateTransactionWrites,
      updateAssetWrites, updateBudgetWrites, applyWrites, applyWrite, s6, uB,
      List.find?_cons, List.filter_cons, List.take, String.reduceEq] at h

end FinanceApp

namespace FinanceApp

/-- ASCII case folding fixes the lowercase type tag `expense`. -/
theorem strLower_expense : strLower "expense" = "expense" := rfl

/-- ASCII case folding fixes the lowercase type tag `income`. -/
theorem strLower_income : strLower "income" = "income" := rfl

/-- C5: `deleteTransaction` with an absent id reports failure and
changes nothing; with a present id it reverses the transaction's asset
effect (the signed amount is subtracted back at the located asset),
applies the floor-at-zero reversal to every budget matching the
category of an expense, appends the `delete` history record with the
full snapshot, removes the transaction row, pushes the snapshot onto
the undo buffer — which never exceeds five entries, evicting the
oldest — and returns true. -/
theorem C5_deleteTransaction_spec (nowS : String) (S : State) (id : Nat)
    (hwf : WellFormed S) :
    (S.transactions.find? (fun x => x.id == id) = none →
      deleteTransaction nowS S id = (S, false)) ∧
    (∀ t, S.transactions.find? (fun x => x.id == id) = some t →
      (deleteTransaction nowS S id).2 = true ∧
      (deleteTransaction nowS S id).1.assets =
        S.assets.map (fun a => if a.name = t.location ∧ t.location ≠ "" then
          { a with amount := a.amount - signedAmount t } else a) ∧
      (deleteTransaction nowS S id).1.budgets =
        S.budgets.map (fun b =>
          if t.type = "expense" ∧ t.category ≠ "" ∧ b.category = t.category then
            { b with spent := max 0 (b.spent - t.amount) } else b) ∧
      (deleteTransaction nowS S id).1.transactions =
        S.transactions.filter (fun x => x.id != id) ∧
      (deleteTransaction nowS S id).1.history = S.history ++
        [{ id := S.nextHistoryId, transactionId := id, action := "delete",
           timestamp := nowS, snapshot := t }] ∧
      (deleteTransaction nowS S id).1.recentlyDeleted = t :: S.recentlyDeleted.take 4 ∧
      (deleteTransaction nowS S id).1.recentlyDeleted.length ≤ 5) := by
  constructor
  · intro hnone
    unfold deleteTransaction
    rw [hnone]
  · intro t hfind
    have hst := deleteTransaction_state nowS S id t hwf hfind
    rw [hst]
    refine ⟨rfl, ?_, ?_, rfl, rfl, rfl, ?_⟩
    · show adjustAssets S.assets t.location (-(signedAmount t)) = _
      rw [adjustAssets]
      refine List.map_congr_left (fun a _ => ?_)
      by_cases hc : a.name = t.location ∧ t.location ≠ ""
      · rw [if_pos hc, if_pos hc, sub_eq_add_neg]
      · rw [if_neg hc, if_neg hc]
    · show spentAfterDelete S.budgets t = _
      rw [spentAfterDelete]
      by_cases hb : t.type = "expense" ∧ t.category ≠ ""
      · rw [if_pos hb]
        refine List.map_congr_left (fun b _ => ?_)
        by_cases hc : b.category = t.category
        · rw [if_pos hc, if_pos ⟨hb.1, hb.2, hc⟩]
        · rw [if_neg hc, if_neg (fun hcon => hc hcon.2.2)]
      · rw [if_neg hb]
        exact ((List.map_congr_left (fun b _ => by
          rw [if_neg (fun hcon => hb ⟨hcon.1, hcon.2.1⟩)]
          rfl)).trans (List.map_id _)).symm
    · show (t :: S.recentlyDeleted.take 4).length ≤ 5
      simp [List.length_take]

/-- Deleting Scenario A's stored expense succeeds and the undo buffer
stays within capacity (witnessing `C5_deleteTransaction_spec`). -/
theorem C5_deleteTransaction_witness :
    (deleteTransaction "T1" s6 1).2 = true ∧
    (deleteTransaction "T1" s6 1).1.recentlyDeleted.length ≤ 5 := by
  obtain ⟨-, h⟩ := C5_deleteTransaction_spec "T1" s6 1 (by decide)
  obtain ⟨h1, -, -, -, -, -, h7⟩ := h t6 rfl
  exact ⟨h1, h7⟩

/-- Delete followed by Restore of the same snapshot restores the asset
table unconditionally; it restores the budget table provided every
matching budget's spent covered the snapshot amount when the delete
ran (otherwise the floor-at-zero reversal loses the shortfall and the
restore re-adds the full amount). -/
theorem delete_undo_roundtrip (nowS1 nowS2 : String) (S : State) (t : Tx)
    (hwf : WellFormed S)
    (hfind : S.transactions.find? (fun x => x.id == t.id) = some t)
    (htype : t.type = "income" ∨ t.type = "expense") :
    (undoDeleteTransaction nowS2 (deleteTransaction nowS1 S t.id).1 t).1.assets = S.assets ∧
    ((∀ b ∈ S.budgets, b.category = t.category → t.amount ≤ b.spent) →
      (undoDeleteTransaction nowS2 (deleteTransaction nowS1 S t.id).1 t).1.budgets
        = S.budgets) := by
  have hd := deleteTransaction_state nowS1 S t.id t hwf hfind
  have hwf1 : WellFormed (deleteTransaction nowS1 S t.id).1 :=
    deleteTransaction_wf nowS1 S t.id hwf
  have hu := undoDeleteTransaction_state nowS2 (deleteTransaction nowS1 S t.id).1 t hwf1
  have hty : strLower t.type = t.type := by
    rcases htype with h | h
    · rw [h, strLower_income]
    · rw [h, strLower_expense]
  have hsig : signedAmount
      (createdTransaction nowS2 (deleteTransaction nowS1 S t.id).1 (txToInput t))
      = signedAmount t := by
    rw [signedAmount, signedAmount]
    have h1 : (createdTransaction nowS2 (deleteTransaction nowS1 S t.id).1
        (txToInput t)).type = t.type := hty
    have h2 : (createdTransaction nowS2 (deleteTransaction nowS1 S t.id).1
        (txToInput t)).amount = t.amount := rfl
    rw [h1, h2]
  have hb1 : (deleteTransaction nowS1 S t.id).1.assets =
      adjustAssets S.assets t.location (-(signedAmount t)) := by rw [hd]
  have hb2 : (deleteTransaction nowS1 S t.id).1.budgets = spentAfterDelete S.budgets t := by
    rw [hd]
  constructor
  · rw [hu]
    show adjustAssets (deleteTransaction nowS1 S t.id).1.assets t.location
        (signedAmount (createdTransaction nowS2 (deleteTransaction nowS1 S t.id).1
          (txToInput t))) = S.assets
    rw [hsig, hb1]
    exact adjustAssets_cancel S.assets t.location (signedAmount t)
  · intro hspent
    rw [hu]
    show spentAfterAdd (deleteTransaction nowS1 S t.id).1.budgets
        (validateTransaction nowS2 (txToInput t)) = S.budgets
    rw [hb2]
    exact spent_delete_add_cancel S.budgets t _ hty rfl rfl hspent

/-- C6 (amended): Delete immediately followed by Restore of the same
snapshot reproduces the asset amounts unconditionally, and the budget
spent values provided every matching budget's accumulator covered the
snapshot amount at delete time; without that proviso the claim is
refuted by `C6_delete_undo_roundtrip_counterexample`. -/
theorem C6_delete_undo_roundtrip_amended (nowS1 nowS2 : String) (S : State) (t : Tx)
    (hwf : WellFormed S)
    (hfind : S.transactions.find? (fun x => x.id == t.id) = some t)
    (htype : t.type = "income" ∨ t.type = "expense")
    (hspent : ∀ b ∈ S.budgets, b.category = t.category → t.amount ≤ b.spent) :
    (undoDeleteTransaction nowS2 (deleteTransaction nowS1 S t.id).1 t).1.assets = S.assets ∧
    (undoDeleteTransaction nowS2 (deleteTransaction nowS1 S t.id).1 t).1.budgets
      = S.budgets := by
  obtain ⟨h1, h2⟩ := delete_undo_roundtrip nowS1 nowS2 S t hwf hfind htype
  exact ⟨h1, h2 hspent⟩

/-- Delete-then-Restore of the stored expense, from the state whose Food
budget already carries the expense in its accumulator, restores both
tables (witnessing `C6_delete_undo_roundtrip_amended`). -/
theorem C6_delete_undo_roundtrip_witness :
    (undoDeleteTransaction "T2" (deleteTransaction "T1" s6w 1).1 t6).1.assets = s6w.assets ∧
    (undoDeleteTransaction "T2" (deleteTransaction "T1" s6w 1).1 t6).1.budgets
      = s6w.budgets :=
  C6_delete_undo_roundtrip_amended "T1" "T2" s6w t6 (by decide) rfl (Or.inr rfl)
    (by
      intro b hb hc
      simp only [s6w, List.mem_singleton] at hb
      subst hb
      norm_num [t6])

/-- Delete-then-Restore from the state whose Food budget has nothing
spent refutes C6 for budgets: the delete's floor-at-zero reversal keeps
spent at 0 and the restore then adds the full amount back, ending at 30
instead of the original 0 (the asset side does return to its original
value). -/
theorem C6_delete_undo_roundtrip_counterexample :
    (undoDeleteTransaction "T2" (deleteTransaction "T1" s6 1).1 t6).1.assets = s6.assets ∧
    (undoDeleteTransaction "T2" (deleteTransaction "T1" s6 1).1 t6).1.budgets
      ≠ s6.budgets := by
  constructor
  · exact (delete_undo_roundtrip "T1" "T2" s6 t6 (by decide) rfl (Or.inr rfl)).1
  · intro hcon
    have hd := deleteTransaction_state "T1" s6 1 t6 (by decide) rfl
    have hwf1 : WellFormed (deleteTransaction "T1" s6 1).1 :=
      deleteTransaction_wf "T1" s6 1 (by decide)
    have hu := undoDeleteTransaction_state "T2" (deleteTransaction "T1" s6 1).1 t6 hwf1
    rw [hu] at hcon
    have hcon2 : spentAfterAdd (deleteTransaction "T1" s6 1).1.budgets
        (validateTransaction "T2" (txToInput t6)) = s6.budgets := hcon
    have hb2 : (deleteTransaction "T1" s6 1).1.budgets = spentAfterDelete s6.budgets t6 := by
      rw [hd]
    rw [hb2] at hcon2
    norm_num [spentAfterAdd, spentAfterDelete, validateTransaction, txToInput, s6, t6,
      strLower_expense, String.reduceEq] at hcon2
    exact absurd hcon2 (by decide)

end FinanceApp

namespace FinanceApp

/-- C7: both archiving operations move exactly the selected transactions
(strictly older than the cutoff, respectively inside the inclusive date
range) into archived storage as copies with a fresh archived date,
remove them from the active set, report the number moved, and leave
every asset amount and every budget spent value untouched. -/
theorem C7_archiving_frame :
    ∀ (cutoff nowS startD endD : String) (S : State),
      (autoArchiveOldTransactions cutoff nowS S).assets = S.assets ∧
      (autoArchiveOldTransactions cutoff nowS S).budgets = S.budgets ∧
      (autoArchiveOldTransactions cutoff nowS S).transactions =
        S.transactions.filter (fun t => !(decide (t.date < cutoff))) ∧
      (autoArchiveOldTransactions cutoff nowS S).archived =
        S.archived ++ archiveCopies nowS S.nextArchivedId
          (S.transactions.filter (fun t => decide (t.date < cutoff))) ∧
      (archiveTransactionsByDateRange nowS startD endD S).1.assets = S.assets ∧
      (archiveTransactionsByDateRange nowS startD endD S).1.budgets = S.budgets ∧
      (archiveTransactionsByDateRange nowS startD endD S).1.transactions =
        S.transactions.filter
          (fun t => !(decide (startD ≤ t.date) && decide (t.date ≤ endD))) ∧
      (archiveTransactionsByDateRange nowS startD endD S).1.archived =
        S.archived ++ archiveCopies nowS S.nextArchivedId
          (S.transactions.filter
            (fun t => decide (startD ≤ t.date) && decide (t.date ≤ endD))) ∧
      (archiveTransactionsByDateRange nowS startD endD S).2 =
        (S.transactions.filter
          (fun t => decide (startD ≤ t.date) && decide (t.date ≤ endD))).length := by
  intro cutoff nowS startD endD S
  have h1 : (autoArchiveOldTransactions cutoff nowS S).assets = S.assets ∧
      (autoArchiveOldTransactions cutoff nowS S).budgets = S.budgets ∧
      (autoArchiveOldTransactions cutoff nowS S).transactions =
        S.transactions.filter (fun t => !(decide (t.date < cutoff))) ∧
      (autoArchiveOldTransactions cutoff nowS S).archived =
        S.archived ++ archiveCopies nowS S.nextArchivedId
          (S.transactions.filter (fun t => decide (t.date < cutoff))) := by
    simp only [autoArchiveOldTransactions]
    by_cases h : (S.transactions.filter (fun t => decide (t.date < cutoff))).isEmpty
    · rw [if_pos h]
      have hnil := List.isEmpty_iff.mp h
      have hall := List.filter_eq_nil_iff.mp hnil
      refine ⟨rfl, rfl, ?_, ?_⟩
      · refine (List.filter_eq_self.mpr (fun a ha => ?_)).symm
        cases hpa : (decide (a.date < cutoff) : Bool)
        · rfl
        · exact absurd hpa (hall a ha)
      · rw [hnil]
        show S.archived = S.archived ++ archiveCopies nowS S.nextArchivedId []
        rw [show archiveCopies nowS S.nextArchivedId [] = [] from rfl, List.append_nil]
    · rw [if_neg h]
      exact ⟨rfl, rfl, rfl, rfl⟩
  have h2 : (archiveTransactionsByDateRange nowS startD endD S).1.assets = S.assets ∧
      (archiveTransactionsByDateRange nowS startD endD S).1.budgets = S.budgets ∧
      (archiveTransactionsByDateRange nowS startD endD S).1.transactions =
        S.transactions.filter
          (fun t => !(decide (startD ≤ t.date) && decide (t.date ≤ endD))) ∧
      (archiveTransactionsByDateRange nowS startD endD S).1.archived =
        S.archived ++ archiveCopies nowS S.nextArchivedId
          (S.transactions.filter
            (fun t => decide (startD ≤ t.date) && decide (t.date ≤ endD))) ∧
      (archiveTransactionsByDateRange nowS startD endD S).2 =
        (S.transactions.filter
          (fun t => decide (startD ≤ t.date) && decide (t.date ≤ endD))).length := by
    simp only [archiveTransactionsByDateRange]
    by_cases h : (S.transactions.filter
        (fun t => decide (startD ≤ t.date) && decide (t.date ≤ endD))).isEmpty
    · rw [if_pos h]
      have hnil := List.isEmpty_iff.mp h
      have hall := List.filter_eq_nil_iff.mp hnil
      refine ⟨rfl, rfl, ?_, ?_, ?_⟩
      · refine (List.filter_eq_self.mpr (fun a ha => ?_)).symm
        cases hpa : (decide (startD ≤ a.date) && decide (a.date ≤ endD) : Bool)
        · rfl
        · exact absurd hpa (hall a ha)
      · rw [hnil]
        show S.archived = S.archived ++ archiveCopies nowS S.nextArchivedId []
        rw [show archiveCopies nowS S.nextArchivedId [] = [] from rfl, List.append_nil]
      · rw [hnil]
        rfl
    · rw [if_neg h]
      exact ⟨rfl, rfl, rfl, rfl, rfl⟩
  exact ⟨h1.1, h1.2.1, h1.2.2.1, h1.2.2.2, h2.1, h2.2.1, h2.2.2.1, h2.2.2.2.1, h2.2.2.2.2⟩

/-- C8 (amended): `addTransaction` performs no validation at all.  The
type is lower-cased as a bare string (not checked against the two-valued
enumeration), a missing description defaults to empty and a missing or
empty date to now — but the amount is never checked: a missing or
non-numeric amount is coerced to `0`, a negative amount is kept, and in
every case the row is inserted into the store and the operation
resolves to `undefined` rather than failing synchronously.  The
validation the claim describes is refuted by
`C8_validation_counterexample`. -/
theorem C8_validation_amended :
    ∀ (nowS : String) (S : State) (i : TxInput),
      (addTransaction nowS S i).1.transactions =
        ({ id := S.nextTxId, type := strLower (i.type.getD ""),
           amount := i.amount.getD 0,
           category := i.category.getD "", description := i.description.getD "",
           location := i.location.getD "",
           date := match i.date with
                   | none => nowS
                   | some d => if d = "" then nowS else d } : Tx) :: S.transactions ∧
      (addTransaction nowS S i).2 = none :=
  fun nowS S i => ⟨addTransaction_transactions nowS S i, rfl⟩

/-- An input with a non-numeric amount refutes C8: instead of a
synchronous validation failure with no store access, the row is
inserted with amount `0` and the call resolves to `undefined`. -/
theorem C8_validation_counterexample :
    (addTransaction "2025-07-01" sA badInput).1.transactions =
      ({ id := 1, type := "expense", amount := 0, category := "Food", description := "",
         location := "Wallet", date := "2025-06-01" } : Tx) :: sA.transactions ∧
    (addTransaction "2025-07-01" sA negInput).1.transactions =
      ({ id := 1, type := "expense", amount := -5, category := "Food", description := "",
         location := "Wallet", date := "2025-06-01" } : Tx) :: sA.transactions := by
  constructor
  · rw [addTransaction_transactions]
    rfl
  · rw [addTransaction_transactions]
    rfl

/-- Matching a wildcard-free pattern followed by a trailing `%` against
a string holds exactly when the pattern matches a prefix of the string
up to case folding. -/
theorem likeMatchFuel_tailwild (fuel : Nat) (p s : List Char)
    (hp : ∀ c ∈ p, c ≠ '%' ∧ c ≠ '_') (hf : p.length + 1 + s.length < fuel) :
    (likeMatchFuel fuel (p ++ ['%']) s = true ↔
      ∃ s1 s2 : List Char, s = s1 ++ s2 ∧ p.map Char.toLower = s1.map Char.toLower) := by
  induction fuel generalizing p s with
  | zero => omega
  | succ fuel ih =>
      cases p with
      | nil =>
          constructor
          · intro _
            exact ⟨[], s, rfl, rfl⟩
          · intro _
            show likeMatchFuel (fuel + 1) ('%' :: []) s = true
            cases s with
            | nil =>
                obtain ⟨f, rfl⟩ : ∃ f, fuel = f + 1 := ⟨fuel - 1, by omega⟩
                simp [likeMatchFuel]
            | cons d cs =>
                simp only [likeMatchFuel, reduceIte, Bool.or_eq_true]
                right
                exact ((ih [] cs (by simp) (by simp at hf ⊢; omega)).mpr ⟨[], cs, rfl, rfl⟩)
      | cons c ps =>
          have hc := hp c (List.mem_cons_self _ _)
          cases s with
          | nil =>
              show likeMatchFuel (fuel + 1) (c :: (ps ++ ['%'])) [] = true ↔ _
              simp only [likeMatchFuel, if_neg hc.1]
              constructor
              · intro h
                cases h
              · rintro ⟨s1, s2, heq, hmap⟩
                obtain ⟨rfl, -⟩ := List.append_eq_nil.mp heq.symm
                simp at hmap
          | cons d cs =>
              show likeMatchFuel (fuel + 1) (c :: (ps ++ ['%'])) (d :: cs) = true ↔ _
              simp only [likeMatchFuel, if_neg hc.1, if_neg hc.2, Bool.and_eq_true,
                beq_iff_eq]
              rw [ih ps cs (fun x hx => hp x (List.mem_cons_of_mem _ hx))
                (by simp at hf ⊢; omega)]
              constructor
              · rintro ⟨hcd, s1, s2, rfl, hmap⟩
                exact ⟨d :: s1, s2, rfl, by simp [hcd, hmap]⟩
              · rintro ⟨s1, s2, heq, hmap⟩
                cases s1 with
                | nil => simp at hmap
                | cons e s1 =>
                    rw [List.cons_append] at heq
                    obtain ⟨rfl, rfl⟩ : d = e ∧ cs = s1 ++ s2 := by
                      have h1 := heq
                      rw [List.cons.injEq] at h1
                      exact ⟨h1.1, h1.2⟩
                    simp only [List.map_cons, List.cons.injEq] at hmap
                    exact ⟨hmap.1, s1, s2, rfl, hmap.2⟩

/-- Matching `'%' + p + '%'` with wildcard-free `p` holds exactly when
`p` matches some middle segment of the string up to case folding. -/
theorem likeMatchFuel_bothwild (fuel : Nat) (p s : List Char)
    (hp : ∀ c ∈ p, c ≠ '%' ∧ c ≠ '_') (hf : p.length + 2 + s.length < fuel) :
    (likeMatchFuel fuel ('%' :: (p ++ ['%'])) s = true ↔
      ∃ s1 s2 s3 : List Char, s = s1 ++ (s2 ++ s3) ∧
        p.map Char.toLower = s2.map Char.toLower) := by
  induction fuel generalizing s with
  | zero => omega
  | succ fuel ih =>
      have hpre := likeMatchFuel_tailwild fuel p s hp (by omega)
      constructor
      · intro h
        simp only [likeMatchFuel, reduceIte, Bool.or_eq_true] at h
        rcases h with h | h
        · obtain ⟨s1, s2, rfl, hmap⟩ := hpre.mp h
          exact ⟨[], s1, s2, rfl, hmap⟩
        · cases s with
          | nil => cases h
          | cons d cs =>
              obtain ⟨s1, s2, s3, rfl, hmap⟩ :=
                (ih cs (by simp at hf; omega)).mp h
              exact ⟨d :: s1, s2, s3, rfl, hmap⟩
      · rintro ⟨s1, s2, s3, rfl, hmap⟩
        simp only [likeMatchFuel, reduceIte, Bool.or_eq_true]
        cases s1 with
        | nil =>
            left
            exact hpre.mpr ⟨s2, s3, rfl, hmap⟩
        | cons e s1 =>
            right
            show likeMatchFuel fuel ('%' :: (p ++ ['%'])) (s1 ++ (s2 ++ s3)) = true
            exact (ih (s1 ++ (s2 ++ s3)) (by simp only [List.length_cons,
                List.length_append] at hf ⊢; omega)).mpr
              ⟨s1, s2, s3, rfl, hmap⟩

/-- A middle-segment split up to case folding is the same as infix
containment of the folded lists. -/
theorem exists_split_iff_infix (p s : List Char) :
    (∃ s1 s2 s3 : List Char, s = s1 ++ (s2 ++ s3) ∧
      p.map Char.toLower = s2.map Char.toLower) ↔
    List.IsInfix (p.map Char.toLower) (s.map Char.toLower) := by
  constructor
  · rintro ⟨s1, s2, s3, rfl, hmap⟩
    refine ⟨s1.map Char.toLower, s3.map Char.toLower, ?_⟩
    rw [hmap]
    simp
  · rintro ⟨u, v, huv⟩
    rw [List.append_assoc] at huv
    have hp : p.length ≤ (s.drop u.length).length := by
      have := congrArg List.length huv
      simp at this
      simp only [List.length_drop]
      omega
    refine ⟨s.take u.length, (s.drop u.length).take p.length,
      (s.drop u.length).drop p.length, ?_, ?_⟩
    · rw [List.take_append_drop, List.take_append_drop]
    · have h1 : (s.map Char.toLower).drop u.length =
          p.map Char.toLower ++ v := by
        rw [← huv]
        exact List.drop_left u _
      have h2 : ((s.map Char.toLower).drop u.length).take p.length =
          p.map Char.toLower := by
        rw [h1]
        have : p.length = (p.map Char.toLower).length := by simp
        rw [this, List.take_left]
      rw [← List.map_drop, ← List.map_take] at h2
      exact h2.symm

/-- On terms free of the SQL wildcards `%` and `_`, the source's
`LIKE '%term%'` predicate is exactly the spec's case-insensitive
substring containment. -/
theorem likeContains_wildcard_free (field term : String)
    (h : ∀ c ∈ term.data, c ≠ '%' ∧ c ≠ '_') :
    likeContains field term = substrMatches field term := by
  rw [likeContains, likeMatches, substrMatches]
  have hlen : ('%' :: (term.data ++ ['%'])).length = term.data.length + 2 := by simp
  have hiff := likeMatchFuel_bothwild
    (('%' :: (term.data ++ ['%'])).length + field.data.length + 1)
    term.data field.data h (by rw [hlen]; omega)
  rw [Bool.eq_iff_iff, decide_eq_true_iff, hiff]
  exact exists_split_iff_infix term.data field.data

/-- On wildcard-free terms the search WHERE clause is the spec's
substring match over the three columns. -/
theorem rowMatches_wildcard_free (term category description location : String)
    (h : ∀ c ∈ term.data, c ≠ '%' ∧ c ≠ '_') :
    rowMatches term category description location =
      specRowMatches term category description location := by
  rw [rowMatches, specRowMatches, likeContains_wildcard_free category term h,
    likeContains_wildcard_free description term h,
    likeContains_wildcard_free location term h]

/-- C9 (amended): for every search term free of the SQL wildcards `%`
and `_`, `searchAllTransactions` returns exactly the active — and, when
`includeArchived` is set, archived — transactions whose category,
description or location contains the term as a case-insensitive
substring, each row tagged with its `source` discriminator; a term
containing `%` or `_` is interpolated into the LIKE pattern and keeps
its wildcard meaning instead of matching literally.  Each of the two
result sets is ordered by date descending, but the archived set is
concatenated after the active set without a global re-sort, so the
combined list is not date-descending in general (refuted as stated by
`C9_search_counterexample`). -/
theorem C9_search_amended (S : State) (term : String) (inc : Bool)
    (hterm : ∀ c ∈ term.data, c ≠ '%' ∧ c ≠ '_') :
    (∀ r, r ∈ searchAllTransactions S term inc ↔
      ((∃ t ∈ S.transactions,
          specRowMatches term t.category t.description t.location = true ∧
            r = activeResult t) ∨
       (inc = true ∧ ∃ a ∈ S.archived,
          specRowMatches term a.category a.description a.location = true ∧
            r = archivedResult a))) ∧
    searchAllTransactions S term true =
      searchAllTransactions S term false ++
        sortByDateDesc ((S.archived.filter
          (fun a => rowMatches term a.category a.description a.location)).map
            archivedResult) ∧
    DescSorted (searchAllTransactions S term false) ∧
    DescSorted (sortByDateDesc ((S.archived.filter
      (fun a => rowMatches term a.category a.description a.location)).map
        archivedResult)) := by
  have hrw := rowMatches_wildcard_free term
  have hmemA : ∀ r, r ∈ sortByDateDesc ((S.transactions.filter
      (fun t => rowMatches term t.category t.description t.location)).map activeResult) ↔
      ∃ t ∈ S.transactions, specRowMatches term t.category t.description t.location = true ∧
        r = activeResult t := by
    intro r
    rw [sortByDateDesc, (List.perm_insertionSort dateDescRel _).mem_iff]
    constructor
    · intro h
      rcases List.mem_map.mp h with ⟨t, ht, rfl⟩
      have h2 := List.mem_filter.mp ht
      refine ⟨t, h2.1, ?_, rfl⟩
      rw [← hrw t.category t.description t.location hterm]
      exact h2.2
    · rintro ⟨t, ht, hm, rfl⟩
      rw [← hrw t.category t.description t.location hterm] at hm
      exact List.mem_map.mpr ⟨t, List.mem_filter.mpr ⟨ht, hm⟩, rfl⟩
  have hmemB : ∀ r, r ∈ sortByDateDesc ((S.archived.filter
      (fun a => rowMatches term a.category a.description a.location)).map archivedResult) ↔
      ∃ a ∈ S.archived, specRowMatches term a.category a.description a.location = true ∧
        r = archivedResult a := by
    intro r
    rw [sortByDateDesc, (List.perm_insertionSort dateDescRel _).mem_iff]
    constructor
    · intro h
      rcases List.mem_map.mp h with ⟨a, ha, rfl⟩
      have h2 := List.mem_filter.mp ha
      refine ⟨a, h2.1, ?_, rfl⟩
      rw [← hrw a.category a.description a.location hterm]
      exact h2.2
    · rintro ⟨a, ha, hm, rfl⟩
      rw [← hrw a.category a.description a.location hterm] at hm
      exact List.mem_map.mpr ⟨a, List.mem_filter.mpr ⟨ha, hm⟩, rfl⟩
  refine ⟨?_, rfl, ?_, ?_⟩
  · intro r
    cases inc with
    | false =>
        rw [show searchAllTransactions S term false = sortByDateDesc
            ((S.transactions.filter
              (fun t => rowMatches term t.category t.description t.location)).map
                activeResult) from rfl, hmemA r]
        constructor
        · exact fun h => Or.inl h
        · rintro (h | ⟨hcon, -⟩)
          · exact h
          · cases hcon
    | true =>
        rw [show searchAllTransactions S term true = sortByDateDesc
            ((S.transactions.filter
              (fun t => rowMatches term t.category t.description t.location)).map
                activeResult) ++ sortByDateDesc ((S.archived.filter
              (fun a => rowMatches term a.category a.description a.location)).map
                archivedResult) from rfl, List.mem_append, hmemA r, hmemB r]
        constructor
        · rintro (h | h)
          · exact Or.inl h
          · exact Or.inr ⟨rfl, h⟩
        · rintro (h | ⟨-, h⟩)
          · exact Or.inl h
          · exact Or.inr h
  · exact List.sorted_insertionSort dateDescRel _
  · exact List.sorted_insertionSort dateDescRel _

/-- The empty search term has no wildcards; the active-only search of
`s9` is date-descending and returns its matching transaction
(witnessing `C9_search_amended`). -/
theorem C9_search_witness :
    DescSorted (searchAllTransactions s9 "" false) ∧
    activeResult tx9 ∈ searchAllTransactions s9 "" false := by
  have h := C9_search_amended s9 "" false (by intro c hc; cases hc)
  refine ⟨h.2.2.1, (h.1 (activeResult tx9)).mpr (Or.inl ⟨tx9, ?_, by decide, rfl⟩)⟩
  exact List.mem_cons_self tx9 []

/-- A state whose matching archived transaction is newer than a matching
active one refutes the claimed global date-descending order of the
combined result list: the older active row precedes the newer archived
row. -/
theorem C9_search_counterexample :
    ¬ DescSorted (searchAllTransactions s9 "" true) := by
  norm_num [DescSorted, searchAllTransactions, s9, tx9, ar9, rowMatches, likeContains,
    sortByDateDesc, List.insertionSort, List.orderedInsert, activeResult, archivedResult,
    String.reduceEq, dateDescRel, List.sorted_cons]
  decide

/-- C10: `restoreArchivedTransaction` with an id matching no archived
row returns false and leaves both the active and the archived set
unchanged; with a matching row it re-inserts the row's data into the
active set under a fresh id, deletes the archived row, leaves assets and
budgets untouched, and returns true. -/
theorem C10_restoreArchived_spec (S : State) (archivedId : Nat) :
    (S.archived.find? (fun a => a.id == archivedId) = none →
      restoreArchivedTransaction S archivedId = (S, false)) ∧
    (∀ a, S.archived.find? (fun a => a.id == archivedId) = some a →
      (restoreArchivedTransaction S archivedId).2 = true ∧
      (restoreArchivedTransaction S archivedId).1.transactions =
        ({ id := S.nextTxId, type := a.type, amount := a.amount, category := a.category,
           description := a.description, location := a.location, date := a.date } : Tx)
          :: S.transactions ∧
      (restoreArchivedTransaction S archivedId).1.archived =
        S.archived.filter (fun x => x.id != archivedId) ∧
      (restoreArchivedTransaction S archivedId).1.nextTxId = S.nextTxId + 1 ∧
      (restoreArchivedTransaction S archivedId).1.assets = S.assets ∧
      (restoreArchivedTransaction S archivedId).1.budgets = S.budgets) := by
  constructor
  · intro h
    unfold restoreArchivedTransaction
    rw [h]
  · intro a h
    unfold restoreArchivedTransaction
    rw [h]
    exact ⟨rfl, rfl, rfl, rfl, rfl, rfl⟩

/-- Restoring the archived row of `s9` succeeds and assigns the next
fresh transaction id (witnessing `C10_restoreArchived_spec`). -/
theorem C10_restoreArchived_witness :
    (restoreArchivedTransaction s9 1).2 = true ∧
    (restoreArchivedTransaction s9 1).1.nextTxId = 3 := by
  obtain ⟨-, h⟩ := C10_restoreArchived_spec s9 1
  obtain ⟨h1, -, -, h4, -, -⟩ := h ar9 rfl
  exact ⟨h1, h4⟩

end FinanceApp
